import Mathlib

/-!
Verification of the identity-reconciliation core (`src/identity.service.ts`)
of the bitspeed_assign repository.

The service resolves a partial identifier pair (email and/or phone) against a
table of Contact rows, merging clusters and creating rows as needed.  The
whole algorithm is a function from the table state to a consolidated view and
a new table state; we embed it as such, with Prisma's query semantics spelled
out at each call site.
-/

namespace BitespeedIdentity

/-- `linkPrecedence` enum: the source uses the string constants
`"primary"` and `"secondary"`. -/
inductive LinkPrecedence where
  | primary
  | secondary
deriving DecidableEq, Repr

/-- One row of the Contact table (spec section 3; Prisma schema).
Timestamps are naturals. -/
structure Contact where
  id : Nat
  email : Option String
  phoneNumber : Option String
  linkPrecedence : LinkPrecedence
  linkedId : Option Nat
  createdAt : Nat
  deletedAt : Option Nat
deriving DecidableEq, Repr

/-- `IdentifyInput` from identity.service.ts: both fields optional strings. -/
structure IdentifyInput where
  email : Option String
  phoneNumber : Option String
deriving DecidableEq, Repr

/-- `IdentifyResult` from identity.service.ts. -/
structure IdentifyResult where
  primaryContactId : Nat
  emails : List String
  phoneNumbers : List String
  secondaryContactIds : List Nat
deriving DecidableEq, Repr

/-- The Contact table plus the generators the database supplies on insert:
`nextId` is the next auto-increment id, `now` the timestamp assigned to rows
created by the current call. -/
structure Store where
  contacts : List Contact
  nextId : Nat
  now : Nat
deriving DecidableEq, Repr

/-- JS truthiness of an optional string: `undefined`, `null` and `""` are falsy. -/
def optTruthy : Option String → Bool
  | some s => decide (s ≠ "")
  | none => false

/-- `x ? [x] : []` on an optional string field. -/
def truthyList : Option String → List String
  | some s => if s = "" then [] else [s]
  | none => []

/-- One arm of the step-1 `OR`: `email ? { email } : {}` (line 33).  When the
input field is truthy the clause tests equality on the row's column; otherwise
the source puts the empty filter object in the `OR` array, and an empty Prisma
filter imposes no constraint, i.e. it is vacuously true. -/
def emailClause (email : Option String) (c : Contact) : Bool :=
  if optTruthy email then decide (c.email = email) else true

/-- The phone arm of the step-1 `OR`, same shape as `emailClause`. -/
def phoneClause (phone : Option String) (c : Contact) : Bool :=
  if optTruthy phone then decide (c.phoneNumber = phone) else true

/-- Step-1 `where` predicate (lines 31-36): the `OR` of the two clauses,
conjoined with `deletedAt: null`. -/
def matchesDirect (inp : IdentifyInput) (c : Contact) : Bool :=
  (emailClause inp.email c || phoneClause inp.phoneNumber c) && decide (c.deletedAt = none)

/-- Step 1: `prisma.contact.findMany` over the direct-match predicate.  No
`orderBy` is requested; the result is consumed only through iteration,
emptiness and membership, so table order is kept. -/
def directMatchesOf (inp : IdentifyInput) (s : Store) : List Contact :=
  s.contacts.filter (matchesDirect inp)

/-- Step 3 (lines 62-70): the primary ids tied to the matches.  The source
accumulates a `Set<number>` that is consumed only through membership tests, so
we collect a list and duplicates are immaterial. -/
def collectPrimaryIds : List Contact → List Nat
  | [] => []
  | c :: rest =>
    match c.linkPrecedence, c.linkedId with
    | LinkPrecedence.primary, _ => c.id :: collectPrimaryIds rest
    | LinkPrecedence.secondary, some lid => lid :: collectPrimaryIds rest
    | LinkPrecedence.secondary, none => collectPrimaryIds rest

/-- The primary-id set of the current call. -/
def primaryIdsOf (inp : IdentifyInput) (s : Store) : List Nat :=
  collectPrimaryIds (directMatchesOf inp s)

/-- Load order of the cluster queries, `orderBy: { createdAt: "asc" }`.  The
source names only `createdAt`; the order of rows with equal timestamps is the
database's choice and is modelled from the spec: the store contract
(section 4.1) orders by `createdAt` ascending then `id` ascending. -/
def contactLe (a b : Contact) : Prop :=
  a.createdAt < b.createdAt ∨ (a.createdAt = b.createdAt ∧ a.id ≤ b.id)

instance : DecidableRel contactLe := fun a b =>
  decidable_of_iff (a.createdAt < b.createdAt ∨ (a.createdAt = b.createdAt ∧ a.id ≤ b.id))
    Iff.rfl

instance : IsTotal Contact contactLe :=
  ⟨by intro a b; unfold contactLe; omega⟩

instance : IsTrans Contact contactLe :=
  ⟨by intro a b c h1 h2; unfold contactLe at h1 h2 ⊢; omega⟩

/-- The ordered read every cluster query performs. -/
def sortContacts (l : List Contact) : List Contact :=
  List.insertionSort contactLe l

/-- Step-4 `where` predicate (lines 76-82): `id` in the primary-id set, or
`linkedId` in it (`null` is in no set), and not deleted. -/
def relatedPred (pids : List Nat) (c : Contact) : Bool :=
  (decide (c.id ∈ pids) ||
    (match c.linkedId with
     | some lid => decide (lid ∈ pids)
     | none => false)) && decide (c.deletedAt = none)

/-- Step 4 (lines 75-84): the full cluster load, oldest first. -/
def allRelatedContactsOf (inp : IdentifyInput) (s : Store) : List Contact :=
  sortContacts (s.contacts.filter (relatedPred (primaryIdsOf inp s)))

/-- Step 5 (lines 89-91): the loaded primaries, in load order. -/
def allPrimariesOf (inp : IdentifyInput) (s : Store) : List Contact :=
  (allRelatedContactsOf inp s).filter
    (fun c => decide (c.linkPrecedence = LinkPrecedence.primary))

/-- `allPrimaries[0]` (line 93): `undefined` when no primary was loaded. -/
def oldestPrimaryOf (inp : IdentifyInput) (s : Store) : Option Contact :=
  (allPrimariesOf inp s).head?

/-- Rows demoted by the step-6 loop (lines 99-109): every loaded primary other
than the oldest. -/
def demotedIdsOf (inp : IdentifyInput) (s : Store) (p : Contact) : List Nat :=
  ((allPrimariesOf inp s).filter (fun c => decide (c.id ≠ p.id))).map (fun c => c.id)

/-- Rows re-pointed by the loop at lines 112-122: loaded secondaries (snapshot
fields) whose `linkedId` is not the oldest primary's id; `null !== id` is true,
so a null `linkedId` also triggers the update. -/
def repointIdsOf (inp : IdentifyInput) (s : Store) (p : Contact) : List Nat :=
  ((allRelatedContactsOf inp s).filter
    (fun c => decide (c.linkPrecedence = LinkPrecedence.secondary) &&
      decide (c.linkedId ≠ some p.id))).map (fun c => c.id)

/-- Effect of the two update loops on one row.  Each `update` is keyed by a row
id (demoted rows are snapshot primaries, re-pointed rows snapshot secondaries)
and writes constant values, so the sequential loops are one map over the table. -/
def mergeUpdater (oldestId : Nat) (dIds rIds : List Nat) (c : Contact) : Contact :=
  if c.id ∈ dIds then
    { c with linkPrecedence := LinkPrecedence.secondary, linkedId := some oldestId }
  else if c.id ∈ rIds then
    { c with linkedId := some oldestId }
  else c

/-- The row updater of the current call: demote or re-point. -/
def updaterOf (inp : IdentifyInput) (s : Store) (p : Contact) : Contact → Contact :=
  mergeUpdater p.id (demotedIdsOf inp s p) (repointIdsOf inp s p)

/-- The table state after steps 6's demotions and re-pointings. -/
def mergedStoreOf (inp : IdentifyInput) (s : Store) (p : Contact) : Store :=
  { s with contacts := s.contacts.map (updaterOf inp s p) }

/-- The cluster re-fetch predicate of steps 7 and 8 (lines 128-131):
`id` = oldest or `linkedId` = oldest, not deleted. -/
def clusterPred (pid : Nat) (c : Contact) : Bool :=
  (decide (c.id = pid) || decide (c.linkedId = some pid)) && decide (c.deletedAt = none)

/-- A cluster re-fetch, oldest first. -/
def clusterSnapshot (pid : Nat) (s : Store) : List Contact :=
  sortContacts (s.contacts.filter (clusterPred pid))

/-- Step 7 (lines 127-133): the reloaded cluster after the merge writes. -/
def finalContactsOf (inp : IdentifyInput) (s : Store) (p : Contact) : List Contact :=
  clusterSnapshot p.id (mergedStoreOf inp s p)

/-- Step-8 guard `email && !existingEmails.includes(email)` (lines 139-142). -/
def isNewEmailOf (inp : IdentifyInput) (s : Store) (p : Contact) : Bool :=
  optTruthy inp.email &&
    !(decide (inp.email ∈ (finalContactsOf inp s p).map (fun c => c.email)))

/-- Step-8 guard `phoneNumber && !existingPhones.includes(phoneNumber)` (line 143). -/
def isNewPhoneOf (inp : IdentifyInput) (s : Store) (p : Contact) : Bool :=
  optTruthy inp.phoneNumber &&
    !(decide (inp.phoneNumber ∈ (finalContactsOf inp s p).map (fun c => c.phoneNumber)))

/-- Row inserted by the step-8 create (lines 146-153): both input fields
verbatim (`?? null`), secondary, linked to the oldest primary. -/
def newSecondary (inp : IdentifyInput) (p : Contact) (st : Store) : Contact :=
  { id := st.nextId, email := inp.email, phoneNumber := inp.phoneNumber,
    linkPrecedence := LinkPrecedence.secondary, linkedId := some p.id,
    createdAt := st.now, deletedAt := none }

/-- Row inserted by the step-2 create (lines 42-48): both input fields
verbatim, primary, no link. -/
def newPrimary (inp : IdentifyInput) (s : Store) : Contact :=
  { id := s.nextId, email := inp.email, phoneNumber := inp.phoneNumber,
    linkPrecedence := LinkPrecedence.primary, linkedId := none,
    createdAt := s.now, deletedAt := none }

/-- A `prisma.contact.create`: appends the row and advances the id generator. -/
def insertContact (c : Contact) (s : Store) : Store :=
  { s with contacts := s.contacts ++ [c], nextId := s.nextId + 1 }

/-- The store after the step-8 create. -/
def createdStoreOf (inp : IdentifyInput) (s : Store) (p : Contact) : Store :=
  insertContact (newSecondary inp p (mergedStoreOf inp s p)) (mergedStoreOf inp s p)

/-- The view returned by the step-2 no-match path (lines 50-55). -/
def newPrimaryView (inp : IdentifyInput) (s : Store) : IdentifyResult :=
  { primaryContactId := (newPrimary inp s).id,
    emails := truthyList (newPrimary inp s).email,
    phoneNumbers := truthyList (newPrimary inp s).phoneNumber,
    secondaryContactIds := [] }

/-- `if (value && !seen.has(value)) { list.push(value); seen.add(value) }`
(lines 209-217): append a truthy, unseen string to the accumulated list. -/
def pushIfNew : Option String → List String → List String
  | some e, acc => if e ≠ "" ∧ e ∉ acc then acc ++ [e] else acc
  | none, acc => acc

/-- Loop body of buildResponse (lines 204-218), processing contacts front to
back.  The `seenEmails`/`seenPhones` sets always hold exactly the strings
already in the result lists (each push is paired with an add, from equal
seeds), so seen-ness is membership in the accumulated list. -/
def addEntries (primaryId : Nat) :
    List Contact → List String → List String → List Nat →
    List String × List String × List Nat
  | [], ems, phs, secs => (ems, phs, secs)
  | c :: rest, ems, phs, secs =>
    if c.id = primaryId then addEntries primaryId rest ems phs secs
    else
      addEntries primaryId rest (pushIfNew c.email ems) (pushIfNew c.phoneNumber phs)
        (secs ++ [c.id])

/-- buildResponse (identity.service.ts lines 175-226). -/
def buildResponse (primaryId : Nat) (contacts : List Contact) : IdentifyResult :=
  let primary := contacts.find? (fun c => decide (c.id = primaryId))
  let ems0 := match primary with
    | some pc => truthyList pc.email
    | none => []
  let phs0 := match primary with
    | some pc => truthyList pc.phoneNumber
    | none => []
  let r := addEntries primaryId contacts ems0 phs0 []
  { primaryContactId := primaryId, emails := r.1, phoneNumbers := r.2.1,
    secondaryContactIds := r.2.2 }

/-- identifyContact (identity.service.ts lines 23-171) as a function from the
table state to the result and the new state.  When no loaded contact is a
primary, `allPrimaries[0]` is `undefined` and the later `oldestPrimary.id`
accesses throw before any write is performed; that run is modelled as `none`. -/
def identifyContact (inp : IdentifyInput) (s : Store) : Option (IdentifyResult × Store) :=
  if directMatchesOf inp s = [] then
    some (newPrimaryView inp s, insertContact (newPrimary inp s) s)
  else
    match oldestPrimaryOf inp s with
    | none => none
    | some p =>
      if isNewEmailOf inp s p || isNewPhoneOf inp s p then
        some (buildResponse p.id (clusterSnapshot p.id (createdStoreOf inp s p)),
              createdStoreOf inp s p)
      else
        some (buildResponse p.id (finalContactsOf inp s p), mergedStoreOf inp s p)

/-- The linkage invariant of the data model (spec section 3): a non-deleted
primary carries no `linkedId`; a non-deleted secondary points at an existing,
non-deleted primary. -/
def LinkedOk (s : Store) (c : Contact) : Prop :=
  c.deletedAt = none →
    (c.linkPrecedence = LinkPrecedence.primary → c.linkedId = none) ∧
    (c.linkPrecedence = LinkPrecedence.secondary →
      ∃ q ∈ s.contacts, c.linkedId = some q.id ∧ q.deletedAt = none ∧
        q.linkPrecedence = LinkPrecedence.primary)

instance (s : Store) (c : Contact) : Decidable (LinkedOk s c) := by
  unfold LinkedOk; infer_instance

/-- Store consistency: unique ids below the id generator, timestamps at or
below the clock, and the linkage invariant for every row. -/
def WellFormed (s : Store) : Prop :=
  (s.contacts.map (fun c => c.id)).Nodup ∧
  (∀ c ∈ s.contacts, c.id < s.nextId ∧ c.createdAt ≤ s.now) ∧
  ∀ c ∈ s.contacts, LinkedOk s c

instance (s : Store) : Decidable (WellFormed s) := by
  unfold WellFormed; infer_instance

/-! ### Basic facts about the embedded operations -/

theorem contactLe_refl (a : Contact) : contactLe a a :=
  Or.inr ⟨rfl, Nat.le_refl _⟩

theorem mem_sortContacts {a : Contact} {l : List Contact} :
    a ∈ sortContacts l ↔ a ∈ l := by
  simp [sortContacts]

theorem sorted_sortContacts (l : List Contact) :
    List.Sorted contactLe (sortContacts l) :=
  List.sorted_insertionSort contactLe l

theorem id_inj {s : Store} (hn : (s.contacts.map (fun c => c.id)).Nodup)
    {a b : Contact} (ha : a ∈ s.contacts) (hb : b ∈ s.contacts)
    (hid : a.id = b.id) : a = b :=
  List.inj_on_of_nodup_map hn ha hb hid

theorem optTruthy_iff {o : Option String} :
    optTruthy o = true ↔ ∃ e, o = some e ∧ e ≠ "" := by
  cases o <;> simp [optTruthy]

theorem matchesDirect_true_iff {inp : IdentifyInput} {c : Contact} :
    matchesDirect inp c = true ↔
      (emailClause inp.email c = true ∨ phoneClause inp.phoneNumber c = true) ∧
        c.deletedAt = none := by
  unfold matchesDirect; simp

theorem relatedPred_true_iff {pids : List Nat} {c : Contact} :
    relatedPred pids c = true ↔
      (c.id ∈ pids ∨ ∃ lid, c.linkedId = some lid ∧ lid ∈ pids) ∧
        c.deletedAt = none := by
  unfold relatedPred
  cases h : c.linkedId <;> simp [h]

theorem clusterPred_true_iff {pid : Nat} {c : Contact} :
    clusterPred pid c = true ↔
      (c.id = pid ∨ c.linkedId = some pid) ∧ c.deletedAt = none := by
  unfold clusterPred; simp

theorem mem_directMatches {inp : IdentifyInput} {s : Store} {c : Contact} :
    c ∈ directMatchesOf inp s ↔ c ∈ s.contacts ∧ matchesDirect inp c = true :=
  List.mem_filter

theorem mem_allRelated {inp : IdentifyInput} {s : Store} {c : Contact} :
    c ∈ allRelatedContactsOf inp s ↔
      c ∈ s.contacts ∧ relatedPred (primaryIdsOf inp s) c = true := by
  unfold allRelatedContactsOf
  rw [mem_sortContacts, List.mem_filter]

theorem mem_allPrimaries {inp : IdentifyInput} {s : Store} {c : Contact} :
    c ∈ allPrimariesOf inp s ↔
      c ∈ allRelatedContactsOf inp s ∧
        c.linkPrecedence = LinkPrecedence.primary := by
  unfold allPrimariesOf
  rw [List.mem_filter]; simp

theorem collectPrimaryIds_mem_of_primary {l : List Contact} {c : Contact}
    (hc : c ∈ l) (hp : c.linkPrecedence = LinkPrecedence.primary) :
    c.id ∈ collectPrimaryIds l := by
  induction l with
  | nil => cases hc
  | cons d rest ih =>
    rcases List.mem_cons.1 hc with rfl | hc2
    · simp [collectPrimaryIds, hp]
    · have hrec := ih hc2
      cases hq : d.linkPrecedence <;> cases hql : d.linkedId <;>
        simp [collectPrimaryIds, hq, hql, hrec]

theorem collectPrimaryIds_mem_of_secondary {l : List Contact} {c : Contact} {x : Nat}
    (hc : c ∈ l) (hp : c.linkPrecedence = LinkPrecedence.secondary)
    (hl : c.linkedId = some x) : x ∈ collectPrimaryIds l := by
  induction l with
  | nil => cases hc
  | cons d rest ih =>
    rcases List.mem_cons.1 hc with rfl | hc2
    · simp [collectPrimaryIds, hp, hl]
    · have hrec := ih hc2
      cases hq : d.linkPrecedence <;> cases hql : d.linkedId <;>
        simp [collectPrimaryIds, hq, hql, hrec]

theorem collectPrimaryIds_sound {l : List Contact} {x : Nat}
    (hx : x ∈ collectPrimaryIds l) :
    ∃ c ∈ l, (c.linkPrecedence = LinkPrecedence.primary ∧ x = c.id) ∨
      (c.linkPrecedence = LinkPrecedence.secondary ∧ c.linkedId = some x) := by
  induction l with
  | nil => simp [collectPrimaryIds] at hx
  | cons d rest ih =>
    cases hq : d.linkPrecedence <;> cases hql : d.linkedId <;>
      simp only [collectPrimaryIds, hq, hql, List.mem_cons] at hx
    · rcases hx with rfl | hx2
      · exact ⟨d, List.mem_cons_self _ _, Or.inl ⟨hq, rfl⟩⟩
      · obtain ⟨c, hcmem, hcp⟩ := ih hx2
        exact ⟨c, List.mem_cons_of_mem _ hcmem, hcp⟩
    · rcases hx with rfl | hx2
      · exact ⟨d, List.mem_cons_self _ _, Or.inl ⟨hq, rfl⟩⟩
      · obtain ⟨c, hcmem, hcp⟩ := ih hx2
        exact ⟨c, List.mem_cons_of_mem _ hcmem, hcp⟩
    · obtain ⟨c, hcmem, hcp⟩ := ih hx
      exact ⟨c, List.mem_cons_of_mem _ hcmem, hcp⟩
    · rcases hx with rfl | hx2
      · exact ⟨d, List.mem_cons_self _ _, Or.inr ⟨hq, hql⟩⟩
      · obtain ⟨c, hcmem, hcp⟩ := ih hx2
        exact ⟨c, List.mem_cons_of_mem _ hcmem, hcp⟩

/-! ### The oldest loaded primary -/

theorem oldestPrimary_mem_allPrimaries {inp : IdentifyInput} {s : Store} {p : Contact}
    (h : oldestPrimaryOf inp s = some p) : p ∈ allPrimariesOf inp s := by
  unfold oldestPrimaryOf at h
  exact List.mem_of_mem_head? h

theorem oldestPrimary_isPrimary {inp : IdentifyInput} {s : Store} {p : Contact}
    (h : oldestPrimaryOf inp s = some p) :
    p.linkPrecedence = LinkPrecedence.primary :=
  (mem_allPrimaries.1 (oldestPrimary_mem_allPrimaries h)).2

theorem oldestPrimary_mem_related {inp : IdentifyInput} {s : Store} {p : Contact}
    (h : oldestPrimaryOf inp s = some p) : p ∈ allRelatedContactsOf inp s :=
  (mem_allPrimaries.1 (oldestPrimary_mem_allPrimaries h)).1

theorem oldestPrimary_mem_store {inp : IdentifyInput} {s : Store} {p : Contact}
    (h : oldestPrimaryOf inp s = some p) : p ∈ s.contacts :=
  (mem_allRelated.1 (oldestPrimary_mem_related h)).1

theorem oldestPrimary_notDeleted {inp : IdentifyInput} {s : Store} {p : Contact}
    (h : oldestPrimaryOf inp s = some p) : p.deletedAt = none :=
  (relatedPred_true_iff.1 (mem_allRelated.1 (oldestPrimary_mem_related h)).2).2

theorem oldestPrimary_le {inp : IdentifyInput} {s : Store} {p : Contact}
    (h : oldestPrimaryOf inp s = some p) :
    ∀ q ∈ allPrimariesOf inp s, contactLe p q := by
  intro q hq
  have hs : List.Sorted contactLe (allPrimariesOf inp s) :=
    (sorted_sortContacts _).filter _
  unfold oldestPrimaryOf at h
  cases hl : allPrimariesOf inp s with
  | nil => rw [hl] at h; cases h
  | cons a t =>
    rw [hl] at h
    have ha : a = p := by cases h; rfl
    rw [hl] at hq hs
    rcases List.mem_cons.1 hq with rfl | hq2
    · rw [ha]; exact contactLe_refl _
    · rw [← ha]; exact List.rel_of_sorted_cons hs _ hq2

/-! ### Well-formedness projections -/

theorem wf_primary_linkedId_none {s : Store} (hwf : WellFormed s) {c : Contact}
    (hc : c ∈ s.contacts) (hd : c.deletedAt = none)
    (hp : c.linkPrecedence = LinkPrecedence.primary) : c.linkedId = none :=
  ((hwf.2.2 c hc) hd).1 hp

theorem wf_secondary_linked {s : Store} (hwf : WellFormed s) {c : Contact}
    (hc : c ∈ s.contacts) (hd : c.deletedAt = none)
    (hp : c.linkPrecedence = LinkPrecedence.secondary) :
    ∃ q ∈ s.contacts, c.linkedId = some q.id ∧ q.deletedAt = none ∧
      q.linkPrecedence = LinkPrecedence.primary :=
  ((hwf.2.2 c hc) hd).2 hp

theorem related_primary_id_mem_pids {inp : IdentifyInput} {s : Store}
    (hwf : WellFormed s) {c : Contact} (hc : c ∈ allRelatedContactsOf inp s)
    (hp : c.linkPrecedence = LinkPrecedence.primary) :
    c.id ∈ primaryIdsOf inp s := by
  obtain ⟨hcs, hrel⟩ := mem_allRelated.1 hc
  obtain ⟨hor, hd⟩ := relatedPred_true_iff.1 hrel
  rcases hor with h1 | ⟨lid, hlid, _⟩
  · exact h1
  · have hnone := wf_primary_linkedId_none hwf hcs hd hp
    rw [hnone] at hlid; cases hlid

theorem oldest_id_mem_pids {inp : IdentifyInput} {s : Store} {p : Contact}
    (hwf : WellFormed s) (h : oldestPrimaryOf inp s = some p) :
    p.id ∈ primaryIdsOf inp s :=
  related_primary_id_mem_pids hwf (oldestPrimary_mem_related h)
    (oldestPrimary_isPrimary h)

/-! ### The merge updater -/

theorem mem_demotedIds {inp : IdentifyInput} {s : Store} {p : Contact} {x : Nat} :
    x ∈ demotedIdsOf inp s p ↔
      ∃ c, c ∈ allPrimariesOf inp s ∧ c.id ≠ p.id ∧ c.id = x := by
  unfold demotedIdsOf
  simp [List.mem_filter, and_assoc]

theorem mem_repointIds {inp : IdentifyInput} {s : Store} {p : Contact} {x : Nat} :
    x ∈ repointIdsOf inp s p ↔
      ∃ c, c ∈ allRelatedContactsOf inp s ∧
        c.linkPrecedence = LinkPrecedence.secondary ∧
        c.linkedId ≠ some p.id ∧ c.id = x := by
  unfold repointIdsOf
  simp [List.mem_filter, and_assoc]

theorem oldest_not_demoted {inp : IdentifyInput} {s : Store} {p : Contact} :
    p.id ∉ demotedIdsOf inp s p := by
  rw [mem_demotedIds]
  rintro ⟨c, _, hne, heq⟩
  exact hne heq

theorem oldest_not_repointed {inp : IdentifyInput} {s : Store} {p : Contact}
    (hwf : WellFormed s) (h : oldestPrimaryOf inp s = some p) :
    p.id ∉ repointIdsOf inp s p := by
  rw [mem_repointIds]
  rintro ⟨c, hcmem, hsec, _, heq⟩
  have hcs : c ∈ s.contacts := (mem_allRelated.1 hcmem).1
  have hceq : c = p := id_inj hwf.1 hcs (oldestPrimary_mem_store h) heq
  rw [hceq, oldestPrimary_isPrimary h] at hsec
  cases hsec

theorem mergeUpdater_frame (oldestId : Nat) (dIds rIds : List Nat) (c : Contact) :
    (mergeUpdater oldestId dIds rIds c).id = c.id ∧
    (mergeUpdater oldestId dIds rIds c).email = c.email ∧
    (mergeUpdater oldestId dIds rIds c).phoneNumber = c.phoneNumber ∧
    (mergeUpdater oldestId dIds rIds c).createdAt = c.createdAt ∧
    (mergeUpdater oldestId dIds rIds c).deletedAt = c.deletedAt := by
  unfold mergeUpdater
  split_ifs <;> exact ⟨rfl, rfl, rfl, rfl, rfl⟩

theorem updaterOf_oldest_fixed {inp : IdentifyInput} {s : Store} {p : Contact}
    (hwf : WellFormed s) (h : oldestPrimaryOf inp s = some p) :
    updaterOf inp s p p = p := by
  unfold updaterOf mergeUpdater
  rw [if_neg oldest_not_demoted, if_neg (oldest_not_repointed hwf h)]

theorem updaterOf_shape {inp : IdentifyInput} {s : Store} {p : Contact}
    (hwf : WellFormed s) (h : oldestPrimaryOf inp s = some p)
    {c : Contact} (hc : c ∈ s.contacts)
    (hrel : relatedPred (primaryIdsOf inp s) c = true) :
    (c = p ∧ updaterOf inp s p c = p) ∨
    ((updaterOf inp s p c).linkPrecedence = LinkPrecedence.secondary ∧
      (updaterOf inp s p c).linkedId = some p.id) := by
  have hcrel : c ∈ allRelatedContactsOf inp s := mem_allRelated.2 ⟨hc, hrel⟩
  cases hq : c.linkPrecedence with
  | primary =>
    by_cases hid : c.id = p.id
    · have hceq : c = p := id_inj hwf.1 hc (oldestPrimary_mem_store h) hid
      exact Or.inl ⟨hceq, by rw [hceq]; exact updaterOf_oldest_fixed hwf h⟩
    · have hmem : c.id ∈ demotedIdsOf inp s p :=
        mem_demotedIds.2 ⟨c, mem_allPrimaries.2 ⟨hcrel, hq⟩, hid, rfl⟩
      right
      unfold updaterOf mergeUpdater
      rw [if_pos hmem]
      exact ⟨rfl, rfl⟩
  | secondary =>
    have hnd : c.id ∉ demotedIdsOf inp s p := by
      rw [mem_demotedIds]
      rintro ⟨q, hqmem, _, hqid⟩
      have hqs : q ∈ s.contacts := (mem_allRelated.1 (mem_allPrimaries.1 hqmem).1).1
      have hqc : q = c := id_inj hwf.1 hqs hc hqid
      have hqprim := (mem_allPrimaries.1 hqmem).2
      rw [hqc, hq] at hqprim
      cases hqprim
    by_cases hlid : c.linkedId = some p.id
    · have hnr : c.id ∉ repointIdsOf inp s p := by
        rw [mem_repointIds]
        rintro ⟨q, hqmem, _, hqlid, hqid⟩
        have hqs : q ∈ s.contacts := (mem_allRelated.1 hqmem).1
        have hqc : q = c := id_inj hwf.1 hqs hc hqid
        rw [hqc] at hqlid
        exact hqlid hlid
      right
      unfold updaterOf mergeUpdater
      rw [if_neg hnd, if_neg hnr]
      exact ⟨hq, hlid⟩
    · have hmem : c.id ∈ repointIdsOf inp s p :=
        mem_repointIds.2 ⟨c, hcrel, hq, hlid, rfl⟩
      right
      unfold updaterOf mergeUpdater
      rw [if_neg hnd, if_pos hmem]
      exact ⟨hq, rfl⟩

theorem updaterOf_nonrelated {inp : IdentifyInput} {s : Store} {p : Contact}
    (hwf : WellFormed s) {c : Contact} (hc : c ∈ s.contacts)
    (hrel : relatedPred (primaryIdsOf inp s) c = false) :
    updaterOf inp s p c = c := by
  have hnd : c.id ∉ demotedIdsOf inp s p := by
    rw [mem_demotedIds]
    rintro ⟨q, hqmem, _, hqid⟩
    have hqrel := mem_allPrimaries.1 hqmem
    have hqs : q ∈ s.contacts := (mem_allRelated.1 hqrel.1).1
    have hqc : q = c := id_inj hwf.1 hqs hc hqid
    have htrue := (mem_allRelated.1 hqrel.1).2
    rw [hqc, hrel] at htrue
    cases htrue
  have hnr : c.id ∉ repointIdsOf inp s p := by
    rw [mem_repointIds]
    rintro ⟨q, hqmem, _, _, hqid⟩
    have hqs : q ∈ s.contacts := (mem_allRelated.1 hqmem).1
    have hqc : q = c := id_inj hwf.1 hqs hc hqid
    have htrue := (mem_allRelated.1 hqmem).2
    rw [hqc, hrel] at htrue
    cases htrue
  unfold updaterOf mergeUpdater
  rw [if_neg hnd, if_neg hnr]

/-! ### Run lemmas: the three live paths of identifyContact -/

theorem identify_nomatch {inp : IdentifyInput} {s : Store}
    (hdm : directMatchesOf inp s = []) :
    identifyContact inp s =
      some (newPrimaryView inp s, insertContact (newPrimary inp s) s) := by
  unfold identifyContact
  rw [if_pos hdm]

theorem identify_dead {inp : IdentifyInput} {s : Store}
    (hdm : directMatchesOf inp s ≠ []) (hop : oldestPrimaryOf inp s = none) :
    identifyContact inp s = none := by
  unfold identifyContact
  rw [if_neg hdm, hop]

theorem identify_create {inp : IdentifyInput} {s : Store} {p : Contact}
    (hdm : directMatchesOf inp s ≠ []) (hop : oldestPrimaryOf inp s = some p)
    (hnew : (isNewEmailOf inp s p || isNewPhoneOf inp s p) = true) :
    identifyContact inp s =
      some (buildResponse p.id (clusterSnapshot p.id (createdStoreOf inp s p)),
            createdStoreOf inp s p) := by
  unfold identifyContact
  rw [if_neg hdm, hop]
  simp [hnew]

theorem identify_nocreate {inp : IdentifyInput} {s : Store} {p : Contact}
    (hdm : directMatchesOf inp s ≠ []) (hop : oldestPrimaryOf inp s = some p)
    (hnew : (isNewEmailOf inp s p || isNewPhoneOf inp s p) = false) :
    identifyContact inp s =
      some (buildResponse p.id (finalContactsOf inp s p), mergedStoreOf inp s p) := by
  unfold identifyContact
  rw [if_neg hdm, hop]
  simp [hnew]

/-! ### Preservation of well-formedness -/

theorem updaterOf_frame (inp : IdentifyInput) (s : Store) (p : Contact) (c : Contact) :
    (updaterOf inp s p c).id = c.id ∧
    (updaterOf inp s p c).email = c.email ∧
    (updaterOf inp s p c).phoneNumber = c.phoneNumber ∧
    (updaterOf inp s p c).createdAt = c.createdAt ∧
    (updaterOf inp s p c).deletedAt = c.deletedAt :=
  mergeUpdater_frame _ _ _ _

theorem linkedOk_mono {t t1 : Store} {c : Contact}
    (hsub : ∀ q, q ∈ t.contacts → q ∈ t1.contacts)
    (hok : LinkedOk t c) : LinkedOk t1 c := by
  intro hd
  refine ⟨(hok hd).1, fun hsec => ?_⟩
  obtain ⟨q, hq, hrest⟩ := (hok hd).2 hsec
  exact ⟨q, hsub q hq, hrest⟩

theorem linkedOk_of_primary {t : Store} {c : Contact}
    (hp : c.linkPrecedence = LinkPrecedence.primary) (hl : c.linkedId = none) :
    LinkedOk t c := by
  intro _
  constructor
  · intro _; exact hl
  · intro hsec; rw [hp] at hsec; cases hsec

theorem linkedOk_points_to_oldest {inp : IdentifyInput} {s : Store} {p : Contact}
    (h : oldestPrimaryOf inp s = some p) {t : Store} (hpmem : p ∈ t.contacts)
    {c1 : Contact} (hsec : c1.linkPrecedence = LinkPrecedence.secondary)
    (hlid : c1.linkedId = some p.id) : LinkedOk t c1 := by
  intro _
  constructor
  · intro hprim; rw [hsec] at hprim; cases hprim
  · intro _
    exact ⟨p, hpmem, hlid, oldestPrimary_notDeleted h, oldestPrimary_isPrimary h⟩

theorem oldest_mem_merged {inp : IdentifyInput} {s : Store} {p : Contact}
    (hwf : WellFormed s) (h : oldestPrimaryOf inp s = some p) :
    p ∈ (mergedStoreOf inp s p).contacts :=
  List.mem_map.2 ⟨p, oldestPrimary_mem_store h, updaterOf_oldest_fixed hwf h⟩

theorem untouched_of_linked_outside {inp : IdentifyInput} {s : Store} {p : Contact}
    (hwf : WellFormed s) {c q : Contact} (_hc : c ∈ s.contacts)
    (hq : q ∈ s.contacts) (hd : c.deletedAt = none)
    (hlid : c.linkedId = some q.id)
    (hrel : relatedPred (primaryIdsOf inp s) c = false)
    (hqprim : q.linkPrecedence = LinkPrecedence.primary) :
    updaterOf inp s p q = q := by
  have hqrel : relatedPred (primaryIdsOf inp s) q = false := by
    cases hqr : relatedPred (primaryIdsOf inp s) q with
    | false => rfl
    | true =>
      have hqmem : q ∈ allRelatedContactsOf inp s := mem_allRelated.2 ⟨hq, hqr⟩
      have hqpid : q.id ∈ primaryIdsOf inp s :=
        related_primary_id_mem_pids hwf hqmem hqprim
      have : relatedPred (primaryIdsOf inp s) c = true :=
        relatedPred_true_iff.2 ⟨Or.inr ⟨q.id, hlid, hqpid⟩, hd⟩
      rw [this] at hrel; cases hrel
  exact updaterOf_nonrelated hwf hq hqrel

theorem merged_linkedOk {inp : IdentifyInput} {s : Store} {p : Contact}
    (hwf : WellFormed s) (h : oldestPrimaryOf inp s = some p) :
    ∀ c1 ∈ (mergedStoreOf inp s p).contacts, LinkedOk (mergedStoreOf inp s p) c1 := by
  intro c1 hc1
  obtain ⟨c, hc, rfl⟩ := List.mem_map.1 hc1
  cases hrel : relatedPred (primaryIdsOf inp s) c with
  | true =>
    rcases updaterOf_shape hwf h hc hrel with ⟨hceq, hup⟩ | ⟨hsec, hlid⟩
    · rw [hup]
      exact linkedOk_of_primary (oldestPrimary_isPrimary h)
        (wf_primary_linkedId_none hwf (oldestPrimary_mem_store h)
          (oldestPrimary_notDeleted h) (oldestPrimary_isPrimary h))
    · exact linkedOk_points_to_oldest h (oldest_mem_merged hwf h) hsec hlid
  | false =>
    rw [updaterOf_nonrelated hwf hc hrel]
    intro hd
    constructor
    · intro hprim; exact wf_primary_linkedId_none hwf hc hd hprim
    · intro hsec
      obtain ⟨q, hq, hlid, hqd, hqprim⟩ := wf_secondary_linked hwf hc hd hsec
      have hqfix : updaterOf inp s p q = q :=
        untouched_of_linked_outside hwf hc hq hd hlid hrel hqprim
      exact ⟨q, List.mem_map.2 ⟨q, hq, hqfix⟩, hlid, hqd, hqprim⟩

theorem merged_wf {inp : IdentifyInput} {s : Store} {p : Contact}
    (hwf : WellFormed s) (h : oldestPrimaryOf inp s = some p) :
    WellFormed (mergedStoreOf inp s p) := by
  refine ⟨?_, ?_, merged_linkedOk hwf h⟩
  · have heq : (mergedStoreOf inp s p).contacts.map (fun c => c.id) =
        s.contacts.map (fun c => c.id) := by
      show (s.contacts.map (updaterOf inp s p)).map (fun c => c.id) = _
      rw [List.map_map]
      exact List.map_congr_left (fun c _ => (updaterOf_frame inp s p c).1)
    rw [heq]; exact hwf.1
  · intro c1 hc1
    obtain ⟨c, hc, rfl⟩ := List.mem_map.1 hc1
    have hf := updaterOf_frame inp s p c
    constructor
    · rw [hf.1]; exact (hwf.2.1 c hc).1
    · rw [hf.2.2.2.1]; exact (hwf.2.1 c hc).2

theorem insert_wf {t : Store} (hwft : WellFormed t) {n : Contact}
    (hid : n.id = t.nextId) (hcr : n.createdAt ≤ t.now)
    (hok : LinkedOk t n) : WellFormed (insertContact n t) := by
  have hsub : ∀ q, q ∈ t.contacts → q ∈ (insertContact n t).contacts := by
    intro q hq; exact List.mem_append_left _ hq
  refine ⟨?_, ?_, ?_⟩
  · show ((t.contacts ++ [n]).map (fun c => c.id)).Nodup
    rw [List.map_append]
    refine List.Nodup.append hwft.1 (by simp) ?_
    intro a ha hb
    simp only [List.map_cons, List.map_nil, List.mem_singleton] at hb
    obtain ⟨c, hc, hca⟩ := List.mem_map.1 ha
    have := (hwft.2.1 c hc).1
    rw [hca, hb, hid] at this
    exact absurd this (Nat.lt_irrefl _)
  · intro c hc
    rcases List.mem_append.1 hc with hc1 | hc2
    · have hb := hwft.2.1 c hc1
      exact ⟨Nat.lt_succ_of_lt hb.1, hb.2⟩
    · have hcn : c = n := by simpa using hc2
      subst hcn
      exact ⟨by rw [hid]; exact Nat.lt_succ_self _, hcr⟩
  · intro c hc
    rcases List.mem_append.1 hc with hc1 | hc2
    · exact linkedOk_mono hsub (hwft.2.2 c hc1)
    · have hcn : c = n := by simpa using hc2
      subst hcn
      exact linkedOk_mono hsub hok

theorem created_wf {inp : IdentifyInput} {s : Store} {p : Contact}
    (hwf : WellFormed s) (h : oldestPrimaryOf inp s = some p) :
    WellFormed (createdStoreOf inp s p) := by
  refine insert_wf (merged_wf hwf h) rfl (Nat.le_refl _) ?_
  exact linkedOk_points_to_oldest h (oldest_mem_merged hwf h) rfl rfl

theorem identify_wf {inp : IdentifyInput} {s : Store} {v : IdentifyResult}
    {s1 : Store} (hwf : WellFormed s)
    (h : identifyContact inp s = some (v, s1)) : WellFormed s1 := by
  by_cases hdm : directMatchesOf inp s = []
  · rw [identify_nomatch hdm] at h
    have hs1 : s1 = insertContact (newPrimary inp s) s := by
      cases h; rfl
    rw [hs1]
    exact insert_wf hwf rfl (Nat.le_refl _) (linkedOk_of_primary rfl rfl)
  · cases hop : oldestPrimaryOf inp s with
    | none => rw [identify_dead hdm hop] at h; cases h
    | some p =>
      cases hnew : (isNewEmailOf inp s p || isNewPhoneOf inp s p) with
      | true =>
        rw [identify_create hdm hop hnew] at h
        have hs1 : s1 = createdStoreOf inp s p := by cases h; rfl
        rw [hs1]
        exact created_wf hwf hop
      | false =>
        rw [identify_nocreate hdm hop hnew] at h
        have hs1 : s1 = mergedStoreOf inp s p := by cases h; rfl
        rw [hs1]
        exact merged_wf hwf hop

/-! ### Structure of buildResponse -/

theorem pushIfNew_extend (v : Option String) (acc : List String) :
    ∃ d, pushIfNew v acc = acc ++ d := by
  cases v with
  | none => exact ⟨[], by simp [pushIfNew]⟩
  | some e =>
    simp only [pushIfNew]
    by_cases hcond : e ≠ "" ∧ e ∉ acc
    · exact ⟨[e], by rw [if_pos hcond]⟩
    · exact ⟨[], by rw [if_neg hcond]; simp⟩

theorem pushIfNew_nodup {v : Option String} {acc : List String}
    (h : acc.Nodup) : (pushIfNew v acc).Nodup := by
  cases v with
  | none => simpa [pushIfNew] using h
  | some e =>
    simp only [pushIfNew]
    by_cases hcond : e ≠ "" ∧ e ∉ acc
    · rw [if_pos hcond]
      refine List.Nodup.append h (by simp) ?_
      intro a ha hb
      rw [List.mem_singleton] at hb
      subst hb
      exact hcond.2 ha
    · rw [if_neg hcond]; exact h

theorem pushIfNew_mem_self {e : String} (hne : e ≠ "") (acc : List String) :
    e ∈ pushIfNew (some e) acc := by
  simp only [pushIfNew]
  by_cases hcond : e ≠ "" ∧ e ∉ acc
  · rw [if_pos hcond]; simp
  · rw [if_neg hcond]
    rcases not_and_or.1 hcond with h1 | h2
    · exact absurd hne h1
    · exact not_not.1 h2

theorem addEntries_ems_extend (pid : Nat) (l : List Contact) :
    ∀ (ems phs : List String) (secs : List Nat),
      ∃ t, (addEntries pid l ems phs secs).1 = ems ++ t := by
  induction l with
  | nil => intro ems phs secs; exact ⟨[], by simp [addEntries]⟩
  | cons c rest ih =>
    intro ems phs secs
    unfold addEntries
    by_cases hc : c.id = pid
    · rw [if_pos hc]; exact ih ems phs secs
    · rw [if_neg hc]
      obtain ⟨d, hd⟩ := pushIfNew_extend c.email ems
      obtain ⟨t, ht⟩ := ih (pushIfNew c.email ems) (pushIfNew c.phoneNumber phs)
        (secs ++ [c.id])
      exact ⟨d ++ t, by rw [ht, hd, List.append_assoc]⟩

theorem addEntries_phs_extend (pid : Nat) (l : List Contact) :
    ∀ (ems phs : List String) (secs : List Nat),
      ∃ t, (addEntries pid l ems phs secs).2.1 = phs ++ t := by
  induction l with
  | nil => intro ems phs secs; exact ⟨[], by simp [addEntries]⟩
  | cons c rest ih =>
    intro ems phs secs
    unfold addEntries
    by_cases hc : c.id = pid
    · rw [if_pos hc]; exact ih ems phs secs
    · rw [if_neg hc]
      obtain ⟨d, hd⟩ := pushIfNew_extend c.phoneNumber phs
      obtain ⟨t, ht⟩ := ih (pushIfNew c.email ems) (pushIfNew c.phoneNumber phs)
        (secs ++ [c.id])
      exact ⟨d ++ t, by rw [ht, hd, List.append_assoc]⟩

theorem addEntries_ems_mono (pid : Nat) (l : List Contact)
    (ems phs : List String) (secs : List Nat) {e : String} (he : e ∈ ems) :
    e ∈ (addEntries pid l ems phs secs).1 := by
  obtain ⟨t, ht⟩ := addEntries_ems_extend pid l ems phs secs
  rw [ht]
  exact List.mem_append_left _ he

theorem addEntries_phs_mono (pid : Nat) (l : List Contact)
    (ems phs : List String) (secs : List Nat) {q : String} (hq : q ∈ phs) :
    q ∈ (addEntries pid l ems phs secs).2.1 := by
  obtain ⟨t, ht⟩ := addEntries_phs_extend pid l ems phs secs
  rw [ht]
  exact List.mem_append_left _ hq

theorem addEntries_secs (pid : Nat) (l : List Contact) :
    ∀ (ems phs : List String) (secs : List Nat),
      (addEntries pid l ems phs secs).2.2 =
        secs ++ (l.filter (fun c => decide (c.id ≠ pid))).map (fun c => c.id) := by
  induction l with
  | nil => intro ems phs secs; simp [addEntries]
  | cons c rest ih =>
    intro ems phs secs
    unfold addEntries
    by_cases hc : c.id = pid
    · rw [if_pos hc, ih]
      simp [hc]
    · rw [if_neg hc, ih]
      simp [hc]

theorem addEntries_ems_nodup (pid : Nat) (l : List Contact) :
    ∀ (ems phs : List String) (secs : List Nat), ems.Nodup →
      (addEntries pid l ems phs secs).1.Nodup := by
  induction l with
  | nil => intro ems phs secs hnd; simpa [addEntries] using hnd
  | cons c rest ih =>
    intro ems phs secs hnd
    unfold addEntries
    by_cases hc : c.id = pid
    · rw [if_pos hc]; exact ih ems phs secs hnd
    · rw [if_neg hc]
      exact ih _ _ _ (pushIfNew_nodup hnd)

theorem addEntries_phs_nodup (pid : Nat) (l : List Contact) :
    ∀ (ems phs : List String) (secs : List Nat), phs.Nodup →
      (addEntries pid l ems phs secs).2.1.Nodup := by
  induction l with
  | nil => intro ems phs secs hnd; simpa [addEntries] using hnd
  | cons c rest ih =>
    intro ems phs secs hnd
    unfold addEntries
    by_cases hc : c.id = pid
    · rw [if_pos hc]; exact ih ems phs secs hnd
    · rw [if_neg hc]
      exact ih _ _ _ (pushIfNew_nodup hnd)

theorem addEntries_ems_complete (pid : Nat) (l : List Contact) :
    ∀ (ems phs : List String) (secs : List Nat) {c : Contact} {e : String},
      c ∈ l → c.id ≠ pid → c.email = some e → e ≠ "" →
      e ∈ (addEntries pid l ems phs secs).1 := by
  induction l with
  | nil => intro _ _ _ _ _ hcl; cases hcl
  | cons d rest ih =>
    intro ems phs secs c e hcl hcid hce hne
    unfold addEntries
    rcases List.mem_cons.1 hcl with rfl | hmem
    · rw [if_neg hcid, hce]
      exact addEntries_ems_mono _ _ _ _ _ (pushIfNew_mem_self hne ems)
    · by_cases hd : d.id = pid
      · rw [if_pos hd]; exact ih _ _ _ hmem hcid hce hne
      · rw [if_neg hd]; exact ih _ _ _ hmem hcid hce hne

theorem addEntries_phs_complete (pid : Nat) (l : List Contact) :
    ∀ (ems phs : List String) (secs : List Nat) {c : Contact} {q : String},
      c ∈ l → c.id ≠ pid → c.phoneNumber = some q → q ≠ "" →
      q ∈ (addEntries pid l ems phs secs).2.1 := by
  induction l with
  | nil => intro _ _ _ _ _ hcl; cases hcl
  | cons d rest ih =>
    intro ems phs secs c q hcl hcid hcq hne
    unfold addEntries
    rcases List.mem_cons.1 hcl with rfl | hmem
    · rw [if_neg hcid, hcq]
      exact addEntries_phs_mono _ _ _ _ _ (pushIfNew_mem_self hne phs)
    · by_cases hd : d.id = pid
      · rw [if_pos hd]; exact ih _ _ _ hmem hcid hcq hne
      · rw [if_neg hd]; exact ih _ _ _ hmem hcid hcq hne

theorem truthyList_nodup (o : Option String) : (truthyList o).Nodup := by
  cases o with
  | none => simp [truthyList]
  | some s =>
    simp only [truthyList]
    split_ifs <;> simp

theorem buildResponse_secs (pid : Nat) (contacts : List Contact) :
    (buildResponse pid contacts).secondaryContactIds =
      (contacts.filter (fun c => decide (c.id ≠ pid))).map (fun c => c.id) := by
  show (addEntries pid contacts _ _ []).2.2 = _
  rw [addEntries_secs]
  simp

theorem buildResponse_emails_nodup (pid : Nat) (contacts : List Contact) :
    (buildResponse pid contacts).emails.Nodup := by
  show (addEntries pid contacts _ _ []).1.Nodup
  apply addEntries_ems_nodup
  cases contacts.find? (fun c => decide (c.id = pid)) with
  | none => simp
  | some pc => exact truthyList_nodup _

theorem buildResponse_phones_nodup (pid : Nat) (contacts : List Contact) :
    (buildResponse pid contacts).phoneNumbers.Nodup := by
  show (addEntries pid contacts _ _ []).2.1.Nodup
  apply addEntries_phs_nodup
  cases contacts.find? (fun c => decide (c.id = pid)) with
  | none => simp
  | some pc => exact truthyList_nodup _

theorem buildResponse_emails_head (pid : Nat) (contacts : List Contact)
    {pc : Contact} (hfind : contacts.find? (fun c => decide (c.id = pid)) = some pc)
    {e : String} (he : pc.email = some e) (hne : e ≠ "") :
    (buildResponse pid contacts).emails.head? = some e := by
  show (addEntries pid contacts _ _ []).1.head? = some e
  rw [hfind]
  obtain ⟨t, ht⟩ := addEntries_ems_extend pid contacts
    (truthyList pc.email) (truthyList pc.phoneNumber) []
  rw [ht, he]
  simp only [truthyList]
  rw [if_neg hne]
  rfl

theorem buildResponse_phones_head (pid : Nat) (contacts : List Contact)
    {pc : Contact} (hfind : contacts.find? (fun c => decide (c.id = pid)) = some pc)
    {q : String} (hq : pc.phoneNumber = some q) (hne : q ≠ "") :
    (buildResponse pid contacts).phoneNumbers.head? = some q := by
  show (addEntries pid contacts _ _ []).2.1.head? = some q
  rw [hfind]
  obtain ⟨t, ht⟩ := addEntries_phs_extend pid contacts
    (truthyList pc.email) (truthyList pc.phoneNumber) []
  rw [ht, hq]
  simp only [truthyList]
  rw [if_neg hne]
  rfl

theorem buildResponse_emails_complete (pid : Nat) (contacts : List Contact)
    {c : Contact} (hc : c ∈ contacts) (hcid : c.id ≠ pid)
    {e : String} (he : c.email = some e) (hne : e ≠ "") :
    e ∈ (buildResponse pid contacts).emails := by
  show e ∈ (addEntries pid contacts _ _ []).1
  exact addEntries_ems_complete pid contacts _ _ _ hc hcid he hne

theorem buildResponse_phones_complete (pid : Nat) (contacts : List Contact)
    {c : Contact} (hc : c ∈ contacts) (hcid : c.id ≠ pid)
    {q : String} (hq : c.phoneNumber = some q) (hne : q ≠ "") :
    q ∈ (buildResponse pid contacts).phoneNumbers := by
  show q ∈ (addEntries pid contacts _ _ []).2.1
  exact addEntries_phs_complete pid contacts _ _ _ hc hcid hq hne

/-! ### Fresh rows are unreferenced; a match always yields a loaded primary -/

theorem no_old_row_references_fresh {s : Store} (hwf : WellFormed s) {c : Contact}
    (hc : c ∈ s.contacts) (hd : c.deletedAt = none) :
    c.id ≠ s.nextId ∧ c.linkedId ≠ some s.nextId := by
  constructor
  · have := (hwf.2.1 c hc).1
    omega
  · intro hlid
    cases hq : c.linkPrecedence with
    | primary =>
      rw [wf_primary_linkedId_none hwf hc hd hq] at hlid
      cases hlid
    | secondary =>
      obtain ⟨q, hqs, hql, _, _⟩ := wf_secondary_linked hwf hc hd hq
      rw [hql] at hlid
      have hqe : q.id = s.nextId := by
        injection hlid
      have := (hwf.2.1 q hqs).1
      omega

theorem cluster_of_fresh {s : Store} (hwf : WellFormed s) :
    s.contacts.filter (clusterPred s.nextId) = [] := by
  rw [List.filter_eq_nil_iff]
  intro c hc hp
  obtain ⟨hor, hd⟩ := clusterPred_true_iff.1 hp
  obtain ⟨hne1, hne2⟩ := no_old_row_references_fresh hwf hc hd
  rcases hor with h1 | h2
  · exact hne1 h1
  · exact hne2 h2

theorem matched_mem_related {inp : IdentifyInput} {s : Store} (hwf : WellFormed s)
    {c : Contact} (hc : c ∈ directMatchesOf inp s) :
    c ∈ allRelatedContactsOf inp s := by
  obtain ⟨hcs, hmd⟩ := mem_directMatches.1 hc
  have hd : c.deletedAt = none := (matchesDirect_true_iff.1 hmd).2
  refine mem_allRelated.2 ⟨hcs, ?_⟩
  cases hq : c.linkPrecedence with
  | primary =>
    exact relatedPred_true_iff.2 ⟨Or.inl (collectPrimaryIds_mem_of_primary hc hq), hd⟩
  | secondary =>
    obtain ⟨q, _, hql, _, _⟩ := wf_secondary_linked hwf hcs hd hq
    exact relatedPred_true_iff.2
      ⟨Or.inr ⟨q.id, hql, collectPrimaryIds_mem_of_secondary hc hq hql⟩, hd⟩

theorem allPrimaries_ne_nil {inp : IdentifyInput} {s : Store}
    (hwf : WellFormed s) (hdm : directMatchesOf inp s ≠ []) :
    allPrimariesOf inp s ≠ [] := by
  obtain ⟨c, hc⟩ := List.exists_mem_of_ne_nil _ hdm
  obtain ⟨hcs, hmd⟩ := mem_directMatches.1 hc
  have hd : c.deletedAt = none := (matchesDirect_true_iff.1 hmd).2
  have hex : ∃ q ∈ s.contacts, q.deletedAt = none ∧
      q.linkPrecedence = LinkPrecedence.primary ∧ q.id ∈ primaryIdsOf inp s := by
    cases hq : c.linkPrecedence with
    | primary => exact ⟨c, hcs, hd, hq, collectPrimaryIds_mem_of_primary hc hq⟩
    | secondary =>
      obtain ⟨q, hqs, hql, hqd, hqp⟩ := wf_secondary_linked hwf hcs hd hq
      exact ⟨q, hqs, hqd, hqp, collectPrimaryIds_mem_of_secondary hc hq hql⟩
  obtain ⟨q, hqs, hqd, hqp, hqpid⟩ := hex
  have hqrel : q ∈ allRelatedContactsOf inp s :=
    mem_allRelated.2 ⟨hqs, relatedPred_true_iff.2 ⟨Or.inl hqpid, hqd⟩⟩
  exact List.ne_nil_of_mem (mem_allPrimaries.2 ⟨hqrel, hqp⟩)

theorem directMatches_ne_nil_of_oldest {inp : IdentifyInput} {s : Store} {p : Contact}
    (hop : oldestPrimaryOf inp s = some p) : directMatchesOf inp s ≠ [] := by
  intro hdm
  have hpids : primaryIdsOf inp s = [] := by
    unfold primaryIdsOf
    rw [hdm]
    rfl
  have hrel := (mem_allRelated.1 (oldestPrimary_mem_related hop)).2
  obtain ⟨hor, _⟩ := relatedPred_true_iff.1 hrel
  rw [hpids] at hor
  rcases hor with h1 | ⟨lid, _, h2⟩
  · cases h1
  · cases h2

/-! ### Concrete fixtures -/

/-- Fixture: a primary holding email a@x and phone 111. -/
def cA : Contact :=
  { id := 1, email := some "a@x", phoneNumber := some "111",
    linkPrecedence := LinkPrecedence.primary, linkedId := none,
    createdAt := 1, deletedAt := none }

/-- Fixture: a younger primary holding email b@x and phone 222. -/
def cB : Contact :=
  { id := 2, email := some "b@x", phoneNumber := some "222",
    linkPrecedence := LinkPrecedence.primary, linkedId := none,
    createdAt := 2, deletedAt := none }

/-- Fixture: a secondary of cB holding phone 333. -/
def cC : Contact :=
  { id := 3, email := none, phoneNumber := some "333",
    linkPrecedence := LinkPrecedence.secondary, linkedId := some 2,
    createdAt := 3, deletedAt := none }

/-- Fixture: two independent clusters, one with a pre-existing secondary. -/
def storeABC : Store := { contacts := [cA, cB, cC], nextId := 4, now := 10 }

/-- Fixture: a single one-contact cluster. -/
def storeA : Store := { contacts := [cA], nextId := 2, now := 10 }

/-- Fixture input: cA's email together with cB's phone, forcing a merge. -/
def inpMerge : IdentifyInput := { email := some "a@x", phoneNumber := some "222" }

/-- Fixture input: only a phone, matching no stored contact. -/
def inpPhoneOnly : IdentifyInput := { email := none, phoneNumber := some "999" }

/-! ### Claim theorems -/

/-- C1 (code evidence): the spec says a clause for an absent field contributes
no rows, so with only one identifier provided, contacts matching neither
identifier are never returned.  The code's lookup, called with only a phone
number, returns a contact matching neither identifier, because the absent
email turns into the empty Prisma filter object inside `OR`, which matches
every non-deleted row. -/
theorem c1_single_identifier_lookup_overmatches :
    directMatchesOf inpPhoneOnly storeA = [cA] ∧
    inpPhoneOnly.email = none ∧
    inpPhoneOnly.phoneNumber = some "999" ∧
    cA.email = some "a@x" ∧ cA.phoneNumber = some "111" := by
  decide

/-- C5 (code evidence): on a store whose contacts match neither provided
identifier, a phone-only call does not create a new Primary: the vacuous
email clause matches the unrelated contact, so the code takes the cluster
path and creates a Secondary linked to it instead. -/
theorem c5_no_match_single_identifier_creates_secondary :
    (inpPhoneOnly.email = none ∧ inpPhoneOnly.phoneNumber = some "999" ∧
      ∀ c ∈ storeA.contacts, c.phoneNumber ≠ some "999") ∧
    identifyContact inpPhoneOnly storeA =
      some ({ primaryContactId := 1, emails := ["a@x"],
              phoneNumbers := ["111", "999"], secondaryContactIds := [2] },
            { contacts := [cA,
                { id := 2, email := none, phoneNumber := some "999",
                  linkPrecedence := LinkPrecedence.secondary, linkedId := some 1,
                  createdAt := 10, deletedAt := none }],
              nextId := 3, now := 10 }) := by
  decide

/-- C9: whenever the direct lookup finds at least one contact and the store
satisfies the data-model invariants, at least one primary is loaded, so
`allPrimaries[0]` is defined and the whole call returns a result instead of
faulting. -/
theorem c9_match_implies_primary_loaded
    (inp : IdentifyInput) (s : Store) (hwf : WellFormed s)
    (hdm : directMatchesOf inp s ≠ []) :
    (oldestPrimaryOf inp s).isSome ∧ (identifyContact inp s).isSome := by
  have h1 : (oldestPrimaryOf inp s).isSome := by
    unfold oldestPrimaryOf
    cases hl : allPrimariesOf inp s with
    | nil => exact absurd hl (allPrimaries_ne_nil hwf hdm)
    | cons a t => rfl
  refine ⟨h1, ?_⟩
  obtain ⟨p, hp⟩ := Option.isSome_iff_exists.1 h1
  cases hnew : (isNewEmailOf inp s p || isNewPhoneOf inp s p) with
  | true => rw [identify_create hdm hp hnew]; rfl
  | false => rw [identify_nocreate hdm hp hnew]; rfl

/-- Witness for C9 at a concrete merge call. -/
theorem c9_match_implies_primary_loaded_witness :
    (oldestPrimaryOf inpMerge storeABC).isSome ∧
    (identifyContact inpMerge storeABC).isSome :=
  c9_match_implies_primary_loaded inpMerge storeABC (by decide) (by decide)

/-- C2: the first loaded primary is minimal in (createdAt, id) order among the
loaded primaries; it survives the merge as a primary; every other loaded
primary's row is rewritten to Secondary linked to it; and when it is the only
loaded primary, no row's linkPrecedence changes. -/
theorem c2_oldest_primary_survives (inp : IdentifyInput) (s : Store) (p : Contact)
    (hwf : WellFormed s) (hop : oldestPrimaryOf inp s = some p) :
    (∀ q ∈ allPrimariesOf inp s, contactLe p q) ∧
    (∃ c1 ∈ (mergedStoreOf inp s p).contacts, c1 = p ∧
      c1.linkPrecedence = LinkPrecedence.primary) ∧
    (∀ q ∈ allPrimariesOf inp s, q.id ≠ p.id →
      ∃ c1 ∈ (mergedStoreOf inp s p).contacts, c1.id = q.id ∧
        c1.linkPrecedence = LinkPrecedence.secondary ∧ c1.linkedId = some p.id) ∧
    (allPrimariesOf inp s = [p] →
      ∀ c1 ∈ (mergedStoreOf inp s p).contacts,
        ∃ c ∈ s.contacts, c1.id = c.id ∧ c1.linkPrecedence = c.linkPrecedence) := by
  refine ⟨oldestPrimary_le hop, ?_, ?_, ?_⟩
  · exact ⟨p, oldest_mem_merged hwf hop, rfl, oldestPrimary_isPrimary hop⟩
  · intro q hq hqne
    have hqs : q ∈ s.contacts := (mem_allRelated.1 (mem_allPrimaries.1 hq).1).1
    have hdem : q.id ∈ demotedIdsOf inp s p := mem_demotedIds.2 ⟨q, hq, hqne, rfl⟩
    refine ⟨updaterOf inp s p q, List.mem_map.2 ⟨q, hqs, rfl⟩,
      (updaterOf_frame inp s p q).1, ?_, ?_⟩
    · unfold updaterOf mergeUpdater
      rw [if_pos hdem]
    · unfold updaterOf mergeUpdater
      rw [if_pos hdem]
  · intro hone c1 hc1
    obtain ⟨c, hc, rfl⟩ := List.mem_map.1 hc1
    refine ⟨c, hc, (updaterOf_frame inp s p c).1, ?_⟩
    have hdem : demotedIdsOf inp s p = [] := by
      unfold demotedIdsOf
      rw [hone]
      simp
    unfold updaterOf mergeUpdater
    rw [hdem]
    rw [if_neg (List.not_mem_nil _)]
    split_ifs <;> rfl

/-- Witness for C2: in the two-cluster fixture, the younger primary cB is
demoted under cA. -/
theorem c2_oldest_primary_survives_witness :
    ∃ c1 ∈ (mergedStoreOf inpMerge storeABC cA).contacts, c1.id = cB.id ∧
      c1.linkPrecedence = LinkPrecedence.secondary ∧ c1.linkedId = some cA.id :=
  (c2_oldest_primary_survives inpMerge storeABC cA (by decide) (by decide)).2.2.1
    cB (by decide) (by decide)

/-- Spec-side description of the view lists (spec view-construction rules):
fold a candidate sequence left to right, appending a value only when it is
not already in the emitted list, preserving first-seen order. -/
def appendUnseen (acc : List String) : List String → List String
  | [] => acc
  | x :: xs => if x ∈ acc then appendUnseen acc xs else appendUnseen (acc ++ [x]) xs

/-- The truthy value of an optional string field, if any. -/
def truthyOpt : Option String → Option String
  | some e => if e = "" then none else some e
  | none => none

/-- Spec-side emitted email list: the primary's truthy email first, then the
remaining members' truthy emails in list (oldest-first) order, each appended
only when not already seen. -/
def specEmails (pid : Nat) (contacts : List Contact) : List String :=
  appendUnseen
    (truthyList (match contacts.find? (fun c => decide (c.id = pid)) with
      | some pc => pc.email
      | none => none))
    ((contacts.filter (fun c => decide (c.id ≠ pid))).filterMap
      (fun c => truthyOpt c.email))

/-- Spec-side emitted phone list, same shape as `specEmails`. -/
def specPhones (pid : Nat) (contacts : List Contact) : List String :=
  appendUnseen
    (truthyList (match contacts.find? (fun c => decide (c.id = pid)) with
      | some pc => pc.phoneNumber
      | none => none))
    ((contacts.filter (fun c => decide (c.id ≠ pid))).filterMap
      (fun c => truthyOpt c.phoneNumber))

theorem addEntries_ems_spec (pid : Nat) (l : List Contact) :
    ∀ (ems phs : List String) (secs : List Nat),
      (addEntries pid l ems phs secs).1 =
        appendUnseen ems ((l.filter (fun c => decide (c.id ≠ pid))).filterMap
          (fun c => truthyOpt c.email)) := by
  induction l with
  | nil => intro ems phs secs; simp [addEntries, appendUnseen]
  | cons c rest ih =>
    intro ems phs secs
    unfold addEntries
    by_cases hc : c.id = pid
    · rw [if_pos hc, ih]
      have hfil : decide (c.id ≠ pid) = false := by simp [hc]
      rw [List.filter_cons]
      simp [hfil]
    · rw [if_neg hc, ih]
      have hfil : decide (c.id ≠ pid) = true := by simp [hc]
      rw [List.filter_cons]
      cases ho : c.email with
      | none => simp [hfil, List.filterMap_cons, truthyOpt, pushIfNew, ho]
      | some e =>
        by_cases he : e = ""
        · simp [hfil, List.filterMap_cons, truthyOpt, pushIfNew, ho, he]
        · by_cases hmem : e ∈ ems
          · simp [hfil, List.filterMap_cons, truthyOpt, pushIfNew, appendUnseen,
              ho, he, hmem]
          · simp [hfil, List.filterMap_cons, truthyOpt, pushIfNew, appendUnseen,
              ho, he, hmem]

theorem addEntries_phs_spec (pid : Nat) (l : List Contact) :
    ∀ (ems phs : List String) (secs : List Nat),
      (addEntries pid l ems phs secs).2.1 =
        appendUnseen phs ((l.filter (fun c => decide (c.id ≠ pid))).filterMap
          (fun c => truthyOpt c.phoneNumber)) := by
  induction l with
  | nil => intro ems phs secs; simp [addEntries, appendUnseen]
  | cons c rest ih =>
    intro ems phs secs
    unfold addEntries
    by_cases hc : c.id = pid
    · rw [if_pos hc, ih]
      have hfil : decide (c.id ≠ pid) = false := by simp [hc]
      rw [List.filter_cons]
      simp [hfil]
    · rw [if_neg hc, ih]
      have hfil : decide (c.id ≠ pid) = true := by simp [hc]
      rw [List.filter_cons]
      cases ho : c.phoneNumber with
      | none => simp [hfil, List.filterMap_cons, truthyOpt, pushIfNew, ho]
      | some q =>
        by_cases he : q = ""
        · simp [hfil, List.filterMap_cons, truthyOpt, pushIfNew, ho, he]
        · by_cases hmem : q ∈ phs
          · simp [hfil, List.filterMap_cons, truthyOpt, pushIfNew, appendUnseen,
              ho, he, hmem]
          · simp [hfil, List.filterMap_cons, truthyOpt, pushIfNew, appendUnseen,
              ho, he, hmem]

theorem buildResponse_emails_spec (pid : Nat) (contacts : List Contact) :
    (buildResponse pid contacts).emails = specEmails pid contacts := by
  show (addEntries pid contacts _ _ []).1 = _
  unfold specEmails
  rw [addEntries_ems_spec]
  cases hf : contacts.find? (fun c => decide (c.id = pid)) with
  | none => rfl
  | some pc => rfl

theorem buildResponse_phones_spec (pid : Nat) (contacts : List Contact) :
    (buildResponse pid contacts).phoneNumbers = specPhones pid contacts := by
  show (addEntries pid contacts _ _ []).2.1 = _
  unfold specPhones
  rw [addEntries_phs_spec]
  cases hf : contacts.find? (fun c => decide (c.id = pid)) with
  | none => rfl
  | some pc => rfl

/-- C8: the emitted email and phone lists are exactly the spec's emission:
the primary's truthy email and phone seeded first, then the remaining
members' truthy values in oldest-first list order, each appended only when
not already seen; consequently the lists are duplicate-free, start with the
primary's values when present, and contain every member's truthy value. -/
theorem c8_view_primary_first_dedup (pid : Nat) (contacts : List Contact) :
    (buildResponse pid contacts).emails = specEmails pid contacts ∧
    (buildResponse pid contacts).phoneNumbers = specPhones pid contacts ∧
    (buildResponse pid contacts).emails.Nodup ∧
    (buildResponse pid contacts).phoneNumbers.Nodup ∧
    (∀ pc, contacts.find? (fun c => decide (c.id = pid)) = some pc →
      (∀ e, pc.email = some e → e ≠ "" →
        (buildResponse pid contacts).emails.head? = some e) ∧
      (∀ q, pc.phoneNumber = some q → q ≠ "" →
        (buildResponse pid contacts).phoneNumbers.head? = some q)) ∧
    (∀ c ∈ contacts, c.id ≠ pid →
      (∀ e, c.email = some e → e ≠ "" →
        e ∈ (buildResponse pid contacts).emails) ∧
      (∀ q, c.phoneNumber = some q → q ≠ "" →
        q ∈ (buildResponse pid contacts).phoneNumbers)) := by
  refine ⟨buildResponse_emails_spec pid contacts,
    buildResponse_phones_spec pid contacts,
    buildResponse_emails_nodup pid contacts,
    buildResponse_phones_nodup pid contacts, ?_, ?_⟩
  · intro pc hfind
    exact ⟨fun e he hne => buildResponse_emails_head pid contacts hfind he hne,
           fun q hq hne => buildResponse_phones_head pid contacts hfind hq hne⟩
  · intro c hc hcid
    exact ⟨fun e he hne => buildResponse_emails_complete pid contacts hc hcid he hne,
           fun q hq hne => buildResponse_phones_complete pid contacts hc hcid hq hne⟩

/-- Fixture: a secondary that repeats the primary's email. -/
def cDup : Contact :=
  { id := 5, email := some "a@x", phoneNumber := some "444",
    linkPrecedence := LinkPrecedence.secondary, linkedId := some 1,
    createdAt := 4, deletedAt := none }

/-- Witness for C8 on a cluster with a duplicated email: the emitted lists
are exactly the spec-side emission, whose concrete values show the
de-duplicated, primary-first, oldest-first content. -/
theorem c8_view_primary_first_dedup_witness :
    (buildResponse 1 [cA, cDup]).emails = specEmails 1 [cA, cDup] ∧
    specEmails 1 [cA, cDup] = ["a@x"] ∧
    (buildResponse 1 [cA, cDup]).phoneNumbers = specPhones 1 [cA, cDup] ∧
    specPhones 1 [cA, cDup] = ["111", "444"] ∧
    (buildResponse 1 [cA, cDup]).emails.Nodup ∧
    (buildResponse 1 [cA, cDup]).emails.head? = some "a@x" := by
  refine ⟨(c8_view_primary_first_dedup 1 [cA, cDup]).1, by decide,
    (c8_view_primary_first_dedup 1 [cA, cDup]).2.1, by decide,
    (c8_view_primary_first_dedup 1 [cA, cDup]).2.2.1, ?_⟩
  exact ((c8_view_primary_first_dedup 1 [cA, cDup]).2.2.2.2.1 cA (by decide)).1
    "a@x" (by decide) (by decide)

/-! ### The two cluster-path result stores -/

theorem identify_store_cases {inp : IdentifyInput} {s : Store} {p : Contact}
    {v : IdentifyResult} {s1 : Store} (hop : oldestPrimaryOf inp s = some p)
    (h : identifyContact inp s = some (v, s1)) :
    s1 = mergedStoreOf inp s p ∨ s1 = createdStoreOf inp s p := by
  have hdm := directMatches_ne_nil_of_oldest hop
  cases hnew : (isNewEmailOf inp s p || isNewPhoneOf inp s p) with
  | true =>
    rw [identify_create hdm hop hnew] at h
    right; cases h; rfl
  | false =>
    rw [identify_nocreate hdm hop hnew] at h
    left; cases h; rfl

theorem merged_row_of_loaded_secondary {inp : IdentifyInput} {s : Store} {p : Contact}
    (hwf : WellFormed s) (hop : oldestPrimaryOf inp s = some p)
    {c : Contact} (hcrel : c ∈ allRelatedContactsOf inp s)
    (hcsec : c.linkPrecedence = LinkPrecedence.secondary)
    {c1 : Contact} (hc1 : c1 ∈ (mergedStoreOf inp s p).contacts)
    (hid : c1.id = c.id) : c1.linkedId = some p.id := by
  obtain ⟨d, hd, rfl⟩ := List.mem_map.1 hc1
  have hdc : d = c := by
    apply id_inj hwf.1 hd (mem_allRelated.1 hcrel).1
    rw [← (updaterOf_frame inp s p d).1]
    exact hid
  subst hdc
  rcases updaterOf_shape hwf hop hd (mem_allRelated.1 hcrel).2 with ⟨hdp, _⟩ | ⟨_, hlid⟩
  · rw [hdp, oldestPrimary_isPrimary hop] at hcsec
    cases hcsec
  · exact hlid

/-- C3: after a call that reaches the cluster path, every loaded Secondary's
row ends with linkedId equal to the surviving primary's id, and the resulting
store has no chains: every non-deleted Secondary references a non-deleted
Primary directly. -/
theorem c3_repointing_preserves_no_chains (inp : IdentifyInput) (s : Store)
    (p : Contact) (v : IdentifyResult) (s1 : Store) (hwf : WellFormed s)
    (hop : oldestPrimaryOf inp s = some p)
    (h : identifyContact inp s = some (v, s1)) :
    (∀ c ∈ allRelatedContactsOf inp s, c.linkPrecedence = LinkPrecedence.secondary →
      ∀ c1 ∈ s1.contacts, c1.id = c.id → c1.linkedId = some p.id) ∧
    (∀ c1 ∈ s1.contacts, c1.deletedAt = none →
      c1.linkPrecedence = LinkPrecedence.secondary →
      ∃ q ∈ s1.contacts, c1.linkedId = some q.id ∧ q.deletedAt = none ∧
        q.linkPrecedence = LinkPrecedence.primary) := by
  constructor
  · intro c hcrel hcsec c1 hc1 hid
    rcases identify_store_cases hop h with hs1 | hs1
    · subst hs1
      exact merged_row_of_loaded_secondary hwf hop hcrel hcsec hc1 hid
    · subst hs1
      have happ : (createdStoreOf inp s p).contacts =
          (mergedStoreOf inp s p).contacts ++
            [newSecondary inp p (mergedStoreOf inp s p)] := rfl
      rw [happ] at hc1
      rcases List.mem_append.1 hc1 with hm | hnewm
      · exact merged_row_of_loaded_secondary hwf hop hcrel hcsec hm hid
      · have hc1n : c1 = newSecondary inp p (mergedStoreOf inp s p) := by
          simpa using hnewm
        have hcid : (newSecondary inp p (mergedStoreOf inp s p)).id = s.nextId := rfl
        rw [hc1n, hcid] at hid
        have hcs : c ∈ s.contacts := (mem_allRelated.1 hcrel).1
        have := (hwf.2.1 c hcs).1
        omega
  · intro c1 hc1 hd hsec
    exact (((identify_wf hwf h).2.2 c1 hc1) hd).2 hsec

/-- C4: on the cluster path a Secondary is created if and only if the input
email is truthy and absent from the reloaded cluster's emails or the input
phone is truthy and absent from its phones; the created row carries both
input fields and links to the surviving primary, and it is the only insert;
otherwise no row is inserted. -/
theorem c4_new_information_check (inp : IdentifyInput) (s : Store) (p : Contact)
    (hop : oldestPrimaryOf inp s = some p) :
    ((isNewEmailOf inp s p || isNewPhoneOf inp s p) = true ↔
      ((∃ e, inp.email = some e ∧ e ≠ "" ∧
          some e ∉ (finalContactsOf inp s p).map (fun c => c.email)) ∨
       (∃ q, inp.phoneNumber = some q ∧ q ≠ "" ∧
          some q ∉ (finalContactsOf inp s p).map (fun c => c.phoneNumber)))) ∧
    ((isNewEmailOf inp s p || isNewPhoneOf inp s p) = true →
      identifyContact inp s =
        some (buildResponse p.id (clusterSnapshot p.id (createdStoreOf inp s p)),
              createdStoreOf inp s p) ∧
      (createdStoreOf inp s p).contacts =
        (mergedStoreOf inp s p).contacts ++
          [{ id := s.nextId, email := inp.email, phoneNumber := inp.phoneNumber,
             linkPrecedence := LinkPrecedence.secondary, linkedId := some p.id,
             createdAt := s.now, deletedAt := none }]) ∧
    ((isNewEmailOf inp s p || isNewPhoneOf inp s p) = false →
      identifyContact inp s =
        some (buildResponse p.id (finalContactsOf inp s p), mergedStoreOf inp s p) ∧
      (mergedStoreOf inp s p).contacts.map (fun c => c.id) =
        s.contacts.map (fun c => c.id)) := by
  have hgen : ∀ (o : Option String) (L : List (Option String)),
      (optTruthy o && !(decide (o ∈ L))) = true ↔
        ∃ e, o = some e ∧ e ≠ "" ∧ some e ∉ L := by
    intro o L
    rw [Bool.and_eq_true, optTruthy_iff]
    constructor
    · rintro ⟨⟨e, rfl, hne⟩, hnot⟩
      refine ⟨e, rfl, hne, ?_⟩
      intro hmem
      simp [hmem] at hnot
    · rintro ⟨e, rfl, hne, hnot⟩
      exact ⟨⟨e, rfl, hne⟩, by simp [hnot]⟩
  refine ⟨?_, ?_, ?_⟩
  · rw [Bool.or_eq_true]
    unfold isNewEmailOf isNewPhoneOf
    rw [hgen, hgen]
  · intro hnew
    exact ⟨identify_create (directMatches_ne_nil_of_oldest hop) hop hnew, rfl⟩
  · intro hnew
    refine ⟨identify_nocreate (directMatches_ne_nil_of_oldest hop) hop hnew, ?_⟩
    show (s.contacts.map (updaterOf inp s p)).map _ = _
    rw [List.map_map]
    exact List.map_congr_left (fun c _ => (updaterOf_frame inp s p c).1)

/-- C7: the returned secondary-id list is exactly the ids of the final
cluster's members other than the primary, in (createdAt, id)-ascending load
order. -/
theorem c7_secondary_ids_exact_and_ordered (inp : IdentifyInput) (s : Store)
    (v : IdentifyResult) (s1 : Store) (hwf : WellFormed s)
    (h : identifyContact inp s = some (v, s1)) :
    v.secondaryContactIds =
      ((clusterSnapshot v.primaryContactId s1).filter
        (fun c => decide (c.id ≠ v.primaryContactId))).map (fun c => c.id) ∧
    List.Sorted contactLe ((clusterSnapshot v.primaryContactId s1).filter
      (fun c => decide (c.id ≠ v.primaryContactId))) := by
  refine ⟨?_, (sorted_sortContacts _).filter _⟩
  by_cases hdm : directMatchesOf inp s = []
  · rw [identify_nomatch hdm] at h
    have hv : v = newPrimaryView inp s := by cases h; rfl
    have hs1 : s1 = insertContact (newPrimary inp s) s := by cases h; rfl
    subst hv; subst hs1
    have hpid : (newPrimaryView inp s).primaryContactId = s.nextId := rfl
    rw [hpid]
    have hcl : clusterSnapshot s.nextId (insertContact (newPrimary inp s) s) =
        [newPrimary inp s] := by
      unfold clusterSnapshot insertContact
      show sortContacts ((s.contacts ++ [newPrimary inp s]).filter _) = _
      rw [List.filter_append, cluster_of_fresh hwf]
      simp [clusterPred, newPrimary, sortContacts]
    rw [hcl]
    simp [newPrimaryView, newPrimary]
  · cases hop : oldestPrimaryOf inp s with
    | none => rw [identify_dead hdm hop] at h; cases h
    | some p =>
      cases hnew : (isNewEmailOf inp s p || isNewPhoneOf inp s p) with
      | true =>
        rw [identify_create hdm hop hnew] at h
        have hv : v = buildResponse p.id
            (clusterSnapshot p.id (createdStoreOf inp s p)) := by cases h; rfl
        have hs1 : s1 = createdStoreOf inp s p := by cases h; rfl
        subst hv; subst hs1
        have hpid : (buildResponse p.id
            (clusterSnapshot p.id (createdStoreOf inp s p))).primaryContactId =
            p.id := rfl
        rw [hpid, buildResponse_secs]
      | false =>
        rw [identify_nocreate hdm hop hnew] at h
        have hv : v = buildResponse p.id (finalContactsOf inp s p) := by
          cases h; rfl
        have hs1 : s1 = mergedStoreOf inp s p := by cases h; rfl
        subst hv; subst hs1
        have hpid : (buildResponse p.id
            (finalContactsOf inp s p)).primaryContactId = p.id := rfl
        rw [hpid, buildResponse_secs]
        rfl

/-- Per-row linkage outcome of the merge writes. -/
theorem updater_linkage_cases {inp : IdentifyInput} {s : Store} {p : Contact}
    (hwf : WellFormed s) (hop : oldestPrimaryOf inp s = some p)
    {c : Contact} (hc : c ∈ s.contacts) :
    ((updaterOf inp s p c).linkPrecedence = c.linkPrecedence ∧
      (updaterOf inp s p c).linkedId = c.linkedId) ∨
    ((updaterOf inp s p c).linkPrecedence = LinkPrecedence.secondary ∧
      (updaterOf inp s p c).linkedId = some p.id) := by
  cases hrel : relatedPred (primaryIdsOf inp s) c with
  | false =>
    rw [updaterOf_nonrelated hwf hc hrel]
    exact Or.inl ⟨rfl, rfl⟩
  | true =>
    rcases updaterOf_shape hwf hop hc hrel with ⟨hceq, hup⟩ | hr
    · rw [hup, hceq]
      exact Or.inl ⟨rfl, rfl⟩
    · exact Or.inr hr

/-- C10: no pre-existing row is removed or has its id, email, phone,
createdAt or deletedAt changed; the only mutations demote to Secondary
and/or set linkedId to the surviving primary's id; the only inserts are the
single new Primary or the single new Secondary. -/
theorem c10_frame_conditions (inp : IdentifyInput) (s : Store)
    (v : IdentifyResult) (s1 : Store) (hwf : WellFormed s)
    (h : identifyContact inp s = some (v, s1)) :
    (∀ c ∈ s.contacts, ∃ c1 ∈ s1.contacts,
      c1.id = c.id ∧ c1.email = c.email ∧ c1.phoneNumber = c.phoneNumber ∧
      c1.createdAt = c.createdAt ∧ c1.deletedAt = c.deletedAt ∧
      ((c1.linkPrecedence = c.linkPrecedence ∧ c1.linkedId = c.linkedId) ∨
       (c1.linkPrecedence = LinkPrecedence.secondary ∧
         ∃ p, oldestPrimaryOf inp s = some p ∧ c1.linkedId = some p.id))) ∧
    (∀ c1 ∈ s1.contacts, (∃ c ∈ s.contacts, c1.id = c.id) ∨
      c1 = newPrimary inp s ∨
      ∃ p, oldestPrimaryOf inp s = some p ∧
        c1 = newSecondary inp p (mergedStoreOf inp s p)) ∧
    (s1.contacts.length = s.contacts.length ∨
      s1.contacts.length = s.contacts.length + 1) := by
  by_cases hdm : directMatchesOf inp s = []
  · rw [identify_nomatch hdm] at h
    have hs1 : s1 = insertContact (newPrimary inp s) s := by cases h; rfl
    subst hs1
    refine ⟨?_, ?_, ?_⟩
    · intro c hc
      exact ⟨c, List.mem_append_left _ hc, rfl, rfl, rfl, rfl, rfl,
        Or.inl ⟨rfl, rfl⟩⟩
    · intro c1 hc1
      rcases List.mem_append.1 hc1 with hm | hn
      · exact Or.inl ⟨c1, hm, rfl⟩
      · exact Or.inr (Or.inl (by simpa using hn))
    · right
      show (s.contacts ++ [newPrimary inp s]).length = _
      simp
  · rcases Option.eq_none_or_eq_some (oldestPrimaryOf inp s) with hop | ⟨p, hop⟩
    · rw [identify_dead hdm hop] at h; cases h
    · have hpre : ∀ c ∈ s.contacts, ∃ c1 ∈ (mergedStoreOf inp s p).contacts,
          c1.id = c.id ∧ c1.email = c.email ∧ c1.phoneNumber = c.phoneNumber ∧
          c1.createdAt = c.createdAt ∧ c1.deletedAt = c.deletedAt ∧
          ((c1.linkPrecedence = c.linkPrecedence ∧ c1.linkedId = c.linkedId) ∨
           (c1.linkPrecedence = LinkPrecedence.secondary ∧
             ∃ q, oldestPrimaryOf inp s = some q ∧ c1.linkedId = some q.id)) := by
        intro c hc
        have hf := updaterOf_frame inp s p c
        refine ⟨updaterOf inp s p c, List.mem_map.2 ⟨c, hc, rfl⟩,
          hf.1, hf.2.1, hf.2.2.1, hf.2.2.2.1, hf.2.2.2.2, ?_⟩
        rcases updater_linkage_cases hwf hop hc with hl | hr
        · exact Or.inl hl
        · exact Or.inr ⟨hr.1, p, hop, hr.2⟩
      rcases identify_store_cases hop h with hs1 | hs1
      · subst hs1
        refine ⟨hpre, ?_, ?_⟩
        · intro c1 hc1
          obtain ⟨c, hc, rfl⟩ := List.mem_map.1 hc1
          exact Or.inl ⟨c, hc, (updaterOf_frame inp s p c).1⟩
        · left
          show (s.contacts.map (updaterOf inp s p)).length = _
          simp
      · subst hs1
        have happ : (createdStoreOf inp s p).contacts =
            (mergedStoreOf inp s p).contacts ++
              [newSecondary inp p (mergedStoreOf inp s p)] := rfl
        refine ⟨?_, ?_, ?_⟩
        · intro c hc
          obtain ⟨c1, hc1, hrest⟩ := hpre c hc
          exact ⟨c1, by rw [happ]; exact List.mem_append_left _ hc1, hrest⟩
        · intro c1 hc1
          rw [happ] at hc1
          rcases List.mem_append.1 hc1 with hm | hn
          · obtain ⟨c, hc, rfl⟩ := List.mem_map.1 hm
            exact Or.inl ⟨c, hc, (updaterOf_frame inp s p c).1⟩
          · exact Or.inr (Or.inr ⟨p, hop, by simpa using hn⟩)
        · right
          rw [happ]
          show ((s.contacts.map (updaterOf inp s p)) ++ _).length = _
          simp

/-! ### Concrete outputs of the merge fixture -/

/-- cB after demotion. -/
def cBdem : Contact :=
  { id := 2, email := some "b@x", phoneNumber := some "222",
    linkPrecedence := LinkPrecedence.secondary, linkedId := some 1,
    createdAt := 2, deletedAt := none }

/-- cC after re-pointing. -/
def cCrep : Contact :=
  { id := 3, email := none, phoneNumber := some "333",
    linkPrecedence := LinkPrecedence.secondary, linkedId := some 1,
    createdAt := 3, deletedAt := none }

/-- The store produced by the merge fixture call. -/
def outStoreABC : Store := { contacts := [cA, cBdem, cCrep], nextId := 4, now := 10 }

/-- The view produced by the merge fixture call. -/
def outViewABC : IdentifyResult :=
  { primaryContactId := 1, emails := ["a@x", "b@x"],
    phoneNumbers := ["111", "222", "333"], secondaryContactIds := [2, 3] }

/-- Witness for C3: after the fixture merge, cC's row links to cA, not to its
demoted old primary cB. -/
theorem c3_repointing_preserves_no_chains_witness :
    cCrep.linkedId = some cA.id :=
  (c3_repointing_preserves_no_chains inpMerge storeABC cA outViewABC outStoreABC
    (by decide) (by decide) (by decide)).1 cC (by decide) (by decide)
    cCrep (by decide) (by decide)

/-- Witness for C4: the fixture merge input adds no new field, so no row is
inserted and the id column is unchanged. -/
theorem c4_new_information_check_witness :
    identifyContact inpMerge storeABC =
      some (buildResponse cA.id (finalContactsOf inpMerge storeABC cA),
            mergedStoreOf inpMerge storeABC cA) ∧
    (mergedStoreOf inpMerge storeABC cA).contacts.map (fun c => c.id) =
      storeABC.contacts.map (fun c => c.id) :=
  (c4_new_information_check inpMerge storeABC cA (by decide)).2.2 (by decide)

/-- Witness for C7 on the merge fixture. -/
theorem c7_secondary_ids_exact_and_ordered_witness :
    outViewABC.secondaryContactIds =
      ((clusterSnapshot outViewABC.primaryContactId outStoreABC).filter
        (fun c => decide (c.id ≠ outViewABC.primaryContactId))).map
        (fun c => c.id) :=
  (c7_secondary_ids_exact_and_ordered inpMerge storeABC outViewABC outStoreABC
    (by decide) (by decide)).1

/-- Witness for C10: cB survives the fixture merge with identity fields
untouched and only its linkage rewritten to the surviving primary. -/
theorem c10_frame_conditions_witness :
    ∃ c1 ∈ outStoreABC.contacts, c1.id = cB.id ∧ c1.email = cB.email ∧
      c1.phoneNumber = cB.phoneNumber ∧ c1.createdAt = cB.createdAt ∧
      c1.deletedAt = cB.deletedAt ∧
      ((c1.linkPrecedence = cB.linkPrecedence ∧ c1.linkedId = cB.linkedId) ∨
       (c1.linkPrecedence = LinkPrecedence.secondary ∧
         ∃ p, oldestPrimaryOf inpMerge storeABC = some p ∧
           c1.linkedId = some p.id)) :=
  (c10_frame_conditions inpMerge storeABC outViewABC outStoreABC
    (by decide) (by decide)).1 cB (by decide)

/-! ### Idempotence support: the no-match path -/

theorem mergedStore_eq_self {inp : IdentifyInput} {s : Store} {p : Contact}
    (hd : demotedIdsOf inp s p = []) (hr : repointIdsOf inp s p = []) :
    mergedStoreOf inp s p = s := by
  unfold mergedStoreOf updaterOf
  rw [hd, hr]
  have h1 : ∀ c ∈ s.contacts, mergeUpdater p.id [] [] c = c := by
    intro c _
    unfold mergeUpdater
    simp
  rw [List.map_congr_left h1, List.map_id']

theorem matchesDirect_newPrimary {inp : IdentifyInput} {s : Store}
    (he : optTruthy inp.email = true) :
    matchesDirect inp (newPrimary inp s) = true := by
  simp [matchesDirect, emailClause, newPrimary, he]

theorem buildResponse_singleton (inp : IdentifyInput) (s : Store) :
    buildResponse (newPrimary inp s).id [newPrimary inp s] = newPrimaryView inp s := by
  unfold buildResponse newPrimaryView
  simp [List.find?, addEntries]

theorem identify_idem_nomatch {inp : IdentifyInput} {s : Store}
    (hwf : WellFormed s) (he : optTruthy inp.email = true)
    (hdm : directMatchesOf inp s = []) :
    identifyContact inp (insertContact (newPrimary inp s) s) =
      some (newPrimaryView inp s, insertContact (newPrimary inp s) s) := by
  have hdm0 : s.contacts.filter (matchesDirect inp) = [] := hdm
  have hid : (newPrimary inp s).id = s.nextId := rfl
  have h1 : directMatchesOf inp (insertContact (newPrimary inp s) s) =
      [newPrimary inp s] := by
    show (s.contacts ++ [newPrimary inp s]).filter (matchesDirect inp) = _
    rw [List.filter_append, hdm0]
    simp [matchesDirect_newPrimary he]
  have h2 : primaryIdsOf inp (insertContact (newPrimary inp s) s) = [s.nextId] := by
    unfold primaryIdsOf
    rw [h1]
    simp [collectPrimaryIds, newPrimary]
  have h3 : (insertContact (newPrimary inp s) s).contacts.filter
      (relatedPred [s.nextId]) = [newPrimary inp s] := by
    show (s.contacts ++ [newPrimary inp s]).filter _ = _
    rw [List.filter_append]
    have hl : s.contacts.filter (relatedPred [s.nextId]) = [] := by
      rw [List.filter_eq_nil_iff]
      intro c hc hp
      obtain ⟨hor, hd⟩ := relatedPred_true_iff.1 hp
      obtain ⟨hne1, hne2⟩ := no_old_row_references_fresh hwf hc hd
      rcases hor with hA | ⟨lid, hlid, hmem⟩
      · rw [List.mem_singleton] at hA
        exact hne1 hA
      · rw [List.mem_singleton] at hmem
        subst hmem
        exact hne2 hlid
    rw [hl]
    simp [relatedPred, newPrimary]
  have h4 : allRelatedContactsOf inp (insertContact (newPrimary inp s) s) =
      [newPrimary inp s] := by
    unfold allRelatedContactsOf
    rw [h2, h3]
    rfl
  have h6 : allPrimariesOf inp (insertContact (newPrimary inp s) s) =
      [newPrimary inp s] := by
    unfold allPrimariesOf
    rw [h4]
    simp [newPrimary]
  have h7 : oldestPrimaryOf inp (insertContact (newPrimary inp s) s) =
      some (newPrimary inp s) := by
    unfold oldestPrimaryOf
    rw [h6]
    rfl
  have h8 : demotedIdsOf inp (insertContact (newPrimary inp s) s)
      (newPrimary inp s) = [] := by
    unfold demotedIdsOf
    rw [h6]
    simp
  have h9 : repointIdsOf inp (insertContact (newPrimary inp s) s)
      (newPrimary inp s) = [] := by
    unfold repointIdsOf
    rw [h4]
    simp [newPrimary]
  have h10 : mergedStoreOf inp (insertContact (newPrimary inp s) s)
      (newPrimary inp s) = insertContact (newPrimary inp s) s :=
    mergedStore_eq_self h8 h9
  have h11 : finalContactsOf inp (insertContact (newPrimary inp s) s)
      (newPrimary inp s) = [newPrimary inp s] := by
    unfold finalContactsOf
    rw [h10]
    unfold clusterSnapshot
    show sortContacts ((s.contacts ++ [newPrimary inp s]).filter
      (clusterPred (newPrimary inp s).id)) = _
    rw [hid]
    have hone : ([newPrimary inp s]).filter (clusterPred s.nextId) =
        [newPrimary inp s] := by
      simp [clusterPred, newPrimary]
    rw [List.filter_append, cluster_of_fresh hwf, hone]
    rfl
  have h12 : isNewEmailOf inp (insertContact (newPrimary inp s) s)
      (newPrimary inp s) = false := by
    unfold isNewEmailOf
    rw [h11]
    simp [newPrimary]
  have h13 : isNewPhoneOf inp (insertContact (newPrimary inp s) s)
      (newPrimary inp s) = false := by
    unfold isNewPhoneOf
    rw [h11]
    simp [newPrimary]
  have hdm1 : directMatchesOf inp (insertContact (newPrimary inp s) s) ≠ [] := by
    rw [h1]
    simp
  rw [identify_nocreate hdm1 h7 (by rw [h12, h13]; rfl)]
  rw [h10, h11, buildResponse_singleton]

/-! ### Idempotence support: stability of a consolidated cluster -/

theorem mem_clusterSnapshot {pid : Nat} {st : Store} {c : Contact} :
    c ∈ clusterSnapshot pid st ↔ c ∈ st.contacts ∧ clusterPred pid c = true := by
  unfold clusterSnapshot
  rw [mem_sortContacts, List.mem_filter]

theorem head_eq_of_all_eq {l : List Contact} {p : Contact}
    (hne : l ≠ []) (hall : ∀ x ∈ l, x = p) : l.head? = some p := by
  cases l with
  | nil => exact absurd rfl hne
  | cons a t =>
    have ha : a = p := hall a (List.mem_cons_self _ _)
    rw [List.head?_cons, ha]

/-- A store whose cluster around `p` is already consolidated and whose direct
matches all fall inside that cluster absorbs a repeated call: the same view
comes back and no row changes. -/
theorem identify_stable (inp : IdentifyInput) (t : Store) (p : Contact)
    (hpprim : p.linkPrecedence = LinkPrecedence.primary)
    (hpdel : p.deletedAt = none)
    (hpt : p ∈ t.contacts)
    (hcl : ∀ c1 ∈ t.contacts, clusterPred p.id c1 = true →
      c1 = p ∨ (c1.linkPrecedence = LinkPrecedence.secondary ∧
        c1.linkedId = some p.id))
    (hmc : ∀ c1 ∈ t.contacts, matchesDirect inp c1 = true →
      clusterPred p.id c1 = true)
    (hne : directMatchesOf inp t ≠ [])
    (hem : inp.email ∈ (clusterSnapshot p.id t).map (fun c => c.email))
    (hph : inp.phoneNumber ∈
      (clusterSnapshot p.id t).map (fun c => c.phoneNumber)) :
    identifyContact inp t = some (buildResponse p.id (clusterSnapshot p.id t), t) := by
  have hsub : ∀ x ∈ primaryIdsOf inp t, x = p.id := by
    intro x hx
    obtain ⟨c, hcdm, hcase⟩ := collectPrimaryIds_sound hx
    obtain ⟨hct, hmd⟩ := mem_directMatches.1 hcdm
    have hclc := hcl c hct (hmc c hct hmd)
    rcases hcase with ⟨hprim, rfl⟩ | ⟨hsec, hlid⟩
    · rcases hclc with rfl | ⟨hs2, _⟩
      · rfl
      · rw [hprim] at hs2; cases hs2
    · rcases hclc with rfl | ⟨_, hl2⟩
      · rw [hpprim] at hsec; cases hsec
      · rw [hlid] at hl2
        injection hl2
  have hin : p.id ∈ primaryIdsOf inp t := by
    obtain ⟨c, hcdm⟩ := List.exists_mem_of_ne_nil _ hne
    obtain ⟨hct, hmd⟩ := mem_directMatches.1 hcdm
    rcases hcl c hct (hmc c hct hmd) with rfl | ⟨hsec, hlid⟩
    · exact collectPrimaryIds_mem_of_primary hcdm hpprim
    · exact collectPrimaryIds_mem_of_secondary hcdm hsec hlid
  have hpred : ∀ c ∈ t.contacts,
      relatedPred (primaryIdsOf inp t) c = clusterPred p.id c := by
    intro c _
    have hiff : relatedPred (primaryIdsOf inp t) c = true ↔
        clusterPred p.id c = true := by
      rw [relatedPred_true_iff, clusterPred_true_iff]
      constructor
      · rintro ⟨h1 | ⟨lid, hlid, hmem⟩, hd⟩
        · exact ⟨Or.inl (hsub _ h1), hd⟩
        · refine ⟨Or.inr ?_, hd⟩
          rw [hlid, hsub _ hmem]
      · rintro ⟨h1 | h2, hd⟩
        · refine ⟨Or.inl ?_, hd⟩
          rw [h1]; exact hin
        · exact ⟨Or.inr ⟨p.id, h2, hin⟩, hd⟩
    cases hx : relatedPred (primaryIdsOf inp t) c with
    | true => exact (hiff.1 hx).symm
    | false =>
      cases hy : clusterPred p.id c with
      | false => rfl
      | true =>
        have hxx := hiff.2 hy
        rw [hx] at hxx
        cases hxx
  have hrel_eq : allRelatedContactsOf inp t = clusterSnapshot p.id t := by
    unfold allRelatedContactsOf clusterSnapshot
    rw [List.filter_congr hpred]
  have hallp : ∀ q ∈ allPrimariesOf inp t, q = p := by
    intro q hq
    obtain ⟨hqrel, hqprim⟩ := mem_allPrimaries.1 hq
    rw [hrel_eq] at hqrel
    obtain ⟨hqt, hqcp⟩ := mem_clusterSnapshot.1 hqrel
    rcases hcl q hqt hqcp with rfl | ⟨hsec, _⟩
    · rfl
    · rw [hqprim] at hsec; cases hsec
  have hpmem2 : p ∈ allPrimariesOf inp t := by
    refine mem_allPrimaries.2 ⟨?_, hpprim⟩
    rw [hrel_eq]
    exact mem_clusterSnapshot.2 ⟨hpt, clusterPred_true_iff.2 ⟨Or.inl rfl, hpdel⟩⟩
  have hop1 : oldestPrimaryOf inp t = some p :=
    head_eq_of_all_eq (List.ne_nil_of_mem hpmem2) hallp
  have hdem : demotedIdsOf inp t p = [] := by
    unfold demotedIdsOf
    have hfil : (allPrimariesOf inp t).filter
        (fun c => decide (c.id ≠ p.id)) = [] := by
      rw [List.filter_eq_nil_iff]
      intro q hq hdq
      rw [hallp q hq] at hdq
      simp at hdq
    rw [hfil]
    rfl
  have hrep : repointIdsOf inp t p = [] := by
    unfold repointIdsOf
    have hfil : (allRelatedContactsOf inp t).filter
        (fun c => decide (c.linkPrecedence = LinkPrecedence.secondary) &&
          decide (c.linkedId ≠ some p.id)) = [] := by
      rw [List.filter_eq_nil_iff]
      intro q hq hdq
      rw [hrel_eq] at hq
      obtain ⟨hqt, hqcp⟩ := mem_clusterSnapshot.1 hq
      rw [Bool.and_eq_true] at hdq
      rcases hcl q hqt hqcp with rfl | ⟨hsec, hlid⟩
      · have hq2 := of_decide_eq_true hdq.1
        rw [hpprim] at hq2; cases hq2
      · exact (of_decide_eq_true hdq.2) hlid
    rw [hfil]
    rfl
  have hms : mergedStoreOf inp t p = t := mergedStore_eq_self hdem hrep
  have hfin : finalContactsOf inp t p = clusterSnapshot p.id t := by
    unfold finalContactsOf
    rw [hms]
  have hfe : isNewEmailOf inp t p = false := by
    unfold isNewEmailOf
    rw [hfin]
    simp [hem]
  have hfp : isNewPhoneOf inp t p = false := by
    unfold isNewPhoneOf
    rw [hfin]
    simp [hph]
  rw [identify_nocreate hne hop1 (by rw [hfe, hfp]; rfl)]
  rw [hfin, hms]

/-! ### Idempotence support: the two cluster-path result stores are stable -/

theorem matchesDirect_updaterOf (inp inp0 : IdentifyInput) (s : Store)
    (p c : Contact) :
    matchesDirect inp (updaterOf inp0 s p c) = matchesDirect inp c := by
  have hf := updaterOf_frame inp0 s p c
  unfold matchesDirect emailClause phoneClause
  rw [hf.2.1, hf.2.2.1, hf.2.2.2.2]

theorem merged_cluster_shape {inp : IdentifyInput} {s : Store} {p : Contact}
    (hwf : WellFormed s) (hop : oldestPrimaryOf inp s = some p) :
    ∀ c1 ∈ (mergedStoreOf inp s p).contacts, clusterPred p.id c1 = true →
      c1 = p ∨ (c1.linkPrecedence = LinkPrecedence.secondary ∧
        c1.linkedId = some p.id) := by
  intro c1 hc1 hcp
  obtain ⟨c, hc, rfl⟩ := List.mem_map.1 hc1
  cases hrel : relatedPred (primaryIdsOf inp s) c with
  | true =>
    rcases updaterOf_shape hwf hop hc hrel with ⟨_, hup⟩ | hr
    · exact Or.inl hup
    · exact Or.inr hr
  | false =>
    rw [updaterOf_nonrelated hwf hc hrel] at hcp ⊢
    obtain ⟨hor, hd⟩ := clusterPred_true_iff.1 hcp
    rcases hor with h1 | h2
    · exact Or.inl (id_inj hwf.1 hc (oldestPrimary_mem_store hop) h1)
    · exfalso
      have htr : relatedPred (primaryIdsOf inp s) c = true :=
        relatedPred_true_iff.2
          ⟨Or.inr ⟨p.id, h2, oldest_id_mem_pids hwf hop⟩, hd⟩
      rw [htr] at hrel
      cases hrel

theorem merged_matches_in_cluster {inp : IdentifyInput} {s : Store} {p : Contact}
    (hwf : WellFormed s) (hop : oldestPrimaryOf inp s = some p) :
    ∀ c1 ∈ (mergedStoreOf inp s p).contacts, matchesDirect inp c1 = true →
      clusterPred p.id c1 = true := by
  intro c1 hc1 hmd
  obtain ⟨c, hc, rfl⟩ := List.mem_map.1 hc1
  rw [matchesDirect_updaterOf] at hmd
  have hcdm : c ∈ directMatchesOf inp s := mem_directMatches.2 ⟨hc, hmd⟩
  have hcrel := (mem_allRelated.1 (matched_mem_related hwf hcdm)).2
  rcases updaterOf_shape hwf hop hc hcrel with ⟨_, hup⟩ | ⟨hsec, hlid⟩
  · rw [hup]
    exact clusterPred_true_iff.2 ⟨Or.inl rfl, oldestPrimary_notDeleted hop⟩
  · refine clusterPred_true_iff.2 ⟨Or.inr hlid, ?_⟩
    rw [(updaterOf_frame inp s p c).2.2.2.2]
    exact (matchesDirect_true_iff.1 hmd).2

theorem dm_ne_merged {inp : IdentifyInput} {s : Store} {p : Contact}
    (hop : oldestPrimaryOf inp s = some p) :
    directMatchesOf inp (mergedStoreOf inp s p) ≠ [] := by
  obtain ⟨c, hc⟩ := List.exists_mem_of_ne_nil _ (directMatches_ne_nil_of_oldest hop)
  obtain ⟨hcs, hmd⟩ := mem_directMatches.1 hc
  have hmem : updaterOf inp s p c ∈ directMatchesOf inp (mergedStoreOf inp s p) := by
    refine mem_directMatches.2 ⟨List.mem_map.2 ⟨c, hcs, rfl⟩, ?_⟩
    rw [matchesDirect_updaterOf]
    exact hmd
  exact List.ne_nil_of_mem hmem

theorem createdStore_contacts (inp : IdentifyInput) (s : Store) (p : Contact) :
    (createdStoreOf inp s p).contacts =
      (mergedStoreOf inp s p).contacts ++
        [newSecondary inp p (mergedStoreOf inp s p)] := rfl

theorem created_cluster_shape {inp : IdentifyInput} {s : Store} {p : Contact}
    (hwf : WellFormed s) (hop : oldestPrimaryOf inp s = some p) :
    ∀ c1 ∈ (createdStoreOf inp s p).contacts, clusterPred p.id c1 = true →
      c1 = p ∨ (c1.linkPrecedence = LinkPrecedence.secondary ∧
        c1.linkedId = some p.id) := by
  intro c1 hc1 hcp
  rw [createdStore_contacts] at hc1
  rcases List.mem_append.1 hc1 with hm | hn
  · exact merged_cluster_shape hwf hop c1 hm hcp
  · right
    have hc1n : c1 = newSecondary inp p (mergedStoreOf inp s p) := by
      simpa using hn
    rw [hc1n]
    exact ⟨rfl, rfl⟩

theorem created_matches_in_cluster {inp : IdentifyInput} {s : Store} {p : Contact}
    (hwf : WellFormed s) (hop : oldestPrimaryOf inp s = some p) :
    ∀ c1 ∈ (createdStoreOf inp s p).contacts, matchesDirect inp c1 = true →
      clusterPred p.id c1 = true := by
  intro c1 hc1 hmd
  rw [createdStore_contacts] at hc1
  rcases List.mem_append.1 hc1 with hm | hn
  · exact merged_matches_in_cluster hwf hop c1 hm hmd
  · have hc1n : c1 = newSecondary inp p (mergedStoreOf inp s p) := by
      simpa using hn
    rw [hc1n]
    exact clusterPred_true_iff.2 ⟨Or.inr rfl, rfl⟩

theorem created_p_mem {inp : IdentifyInput} {s : Store} {p : Contact}
    (hwf : WellFormed s) (hop : oldestPrimaryOf inp s = some p) :
    p ∈ (createdStoreOf inp s p).contacts := by
  rw [createdStore_contacts]
  exact List.mem_append_left _ (oldest_mem_merged hwf hop)

theorem dm_ne_created {inp : IdentifyInput} {s : Store} {p : Contact}
    (hop : oldestPrimaryOf inp s = some p) :
    directMatchesOf inp (createdStoreOf inp s p) ≠ [] := by
  obtain ⟨c, hc⟩ := List.exists_mem_of_ne_nil _ (directMatches_ne_nil_of_oldest hop)
  obtain ⟨hcs, hmd⟩ := mem_directMatches.1 hc
  have hmem : updaterOf inp s p c ∈
      directMatchesOf inp (createdStoreOf inp s p) := by
    refine mem_directMatches.2 ⟨?_, ?_⟩
    · rw [createdStore_contacts]
      exact List.mem_append_left _ (List.mem_map.2 ⟨c, hcs, rfl⟩)
    · rw [matchesDirect_updaterOf]
      exact hmd
  exact List.ne_nil_of_mem hmem

theorem email_mem_cluster_created (inp : IdentifyInput) (s : Store) (p : Contact) :
    inp.email ∈
      (clusterSnapshot p.id (createdStoreOf inp s p)).map (fun c => c.email) := by
  have hns : newSecondary inp p (mergedStoreOf inp s p) ∈
      (createdStoreOf inp s p).contacts := by
    rw [createdStore_contacts]
    exact List.mem_append_right _ (List.mem_singleton.2 rfl)
  have hmem : newSecondary inp p (mergedStoreOf inp s p) ∈
      clusterSnapshot p.id (createdStoreOf inp s p) :=
    mem_clusterSnapshot.2 ⟨hns, clusterPred_true_iff.2 ⟨Or.inr rfl, rfl⟩⟩
  exact List.mem_map.2 ⟨_, hmem, rfl⟩

theorem phone_mem_cluster_created (inp : IdentifyInput) (s : Store) (p : Contact) :
    inp.phoneNumber ∈
      (clusterSnapshot p.id (createdStoreOf inp s p)).map
        (fun c => c.phoneNumber) := by
  have hns : newSecondary inp p (mergedStoreOf inp s p) ∈
      (createdStoreOf inp s p).contacts := by
    rw [createdStore_contacts]
    exact List.mem_append_right _ (List.mem_singleton.2 rfl)
  have hmem : newSecondary inp p (mergedStoreOf inp s p) ∈
      clusterSnapshot p.id (createdStoreOf inp s p) :=
    mem_clusterSnapshot.2 ⟨hns, clusterPred_true_iff.2 ⟨Or.inr rfl, rfl⟩⟩
  exact List.mem_map.2 ⟨_, hmem, rfl⟩

theorem isNewEmail_false_mem {inp : IdentifyInput} {s : Store} {p : Contact}
    (he : optTruthy inp.email = true) (h : isNewEmailOf inp s p = false) :
    inp.email ∈ (finalContactsOf inp s p).map (fun c => c.email) := by
  unfold isNewEmailOf at h
  rw [he] at h
  simpa using h

theorem isNewPhone_false_mem {inp : IdentifyInput} {s : Store} {p : Contact}
    (hph : optTruthy inp.phoneNumber = true) (h : isNewPhoneOf inp s p = false) :
    inp.phoneNumber ∈ (finalContactsOf inp s p).map (fun c => c.phoneNumber) := by
  unfold isNewPhoneOf at h
  rw [hph] at h
  simpa using h

/-- C6: when both identifiers are truthy, repeating an identifyContact call on
its own result store performs no write and returns the identical view. -/
theorem c6_exact_repeat_idempotent (inp : IdentifyInput) (s : Store)
    (hwf : WellFormed s) (he : optTruthy inp.email = true)
    (hph : optTruthy inp.phoneNumber = true)
    (v1 : IdentifyResult) (s1 : Store)
    (h1 : identifyContact inp s = some (v1, s1)) :
    identifyContact inp s1 = some (v1, s1) := by
  by_cases hdm : directMatchesOf inp s = []
  · rw [identify_nomatch hdm] at h1
    have hv : v1 = newPrimaryView inp s := by cases h1; rfl
    have hs1 : s1 = insertContact (newPrimary inp s) s := by cases h1; rfl
    subst hv; subst hs1
    exact identify_idem_nomatch hwf he hdm
  · rcases Option.eq_none_or_eq_some (oldestPrimaryOf inp s) with hop | ⟨p, hop⟩
    · rw [identify_dead hdm hop] at h1; cases h1
    · have hpprim := oldestPrimary_isPrimary hop
      have hpdel := oldestPrimary_notDeleted hop
      cases hnew : (isNewEmailOf inp s p || isNewPhoneOf inp s p) with
      | false =>
        rw [identify_nocreate hdm hop hnew] at h1
        have hv : v1 = buildResponse p.id (finalContactsOf inp s p) := by
          cases h1; rfl
        have hs1 : s1 = mergedStoreOf inp s p := by cases h1; rfl
        subst hv; subst hs1
        rw [Bool.or_eq_false_iff] at hnew
        have hemem := isNewEmail_false_mem he hnew.1
        have hpmem := isNewPhone_false_mem hph hnew.2
        have hstab := identify_stable inp (mergedStoreOf inp s p) p hpprim hpdel
          (oldest_mem_merged hwf hop) (merged_cluster_shape hwf hop)
          (merged_matches_in_cluster hwf hop) (dm_ne_merged hop)
          hemem hpmem
        rw [hstab]
        rfl
      | true =>
        rw [identify_create hdm hop hnew] at h1
        have hv : v1 = buildResponse p.id
            (clusterSnapshot p.id (createdStoreOf inp s p)) := by
          cases h1; rfl
        have hs1 : s1 = createdStoreOf inp s p := by cases h1; rfl
        subst hv; subst hs1
        exact identify_stable inp (createdStoreOf inp s p) p hpprim hpdel
          (created_p_mem hwf hop) (created_cluster_shape hwf hop)
          (created_matches_in_cluster hwf hop) (dm_ne_created hop)
          (email_mem_cluster_created inp s p) (phone_mem_cluster_created inp s p)

/-- Witness for C6: a second identical merge call on the fixture's result
store returns the identical view and leaves the store unchanged. -/
theorem c6_exact_repeat_idempotent_witness :
    identifyContact inpMerge outStoreABC = some (outViewABC, outStoreABC) :=
  c6_exact_repeat_idempotent inpMerge storeABC (by decide) (by decide) (by decide)
    outViewABC outStoreABC (by decide)

end BitespeedIdentity
